import Mathlib

/-!
Verification development for the clusterkit native extension
(`src/ext/clusterkit/src/{clustering.rs, clustering/hdbscan_wrapper.rs,
hnsw.rs, embedder.rs}`).

Modelling conventions:
* `f64`/`f32` values are modelled as real numbers (exact arithmetic;
  floating-point rounding is outside the model).  The `f64 -> f32`
  lowering in the embedder is therefore the identity.
* Rust `HashMap`s are modelled as association lists whose `insert`
  overwrites an existing key, exactly like `HashMap::insert`; maps built
  from the empty map through this `insert` have pairwise-distinct keys,
  so the list length coincides with `HashMap::len`.
* The external collaborators (the hnsw_rs graph search, the annembed
  solver, the hdbscan cluster extraction, the random number generator)
  are passed in as explicit oracle parameters, mirroring the spec's
  "external collaborator" boundary: the code under verification is the
  wrapper logic of this repository.
* Ruby marshalling (magnus) is outside the model: inputs arrive as
  already-converted numeric matrices / vectors / optional labels.
-/

namespace ClusterKit

/-- Mirrors `euclidean_distance` in `clustering.rs` (f64) and the
identical function in `embedder.rs` (f32): zip the two vectors,
sum the squared componentwise differences, take the square root. -/
noncomputable def euclidean_distance (a b : List ℝ) : ℝ :=
  Real.sqrt (((a.zip b).map fun q => (q.1 - q.2) ^ 2).sum)

/-- Componentwise sum of two vectors (ndarray `+=` on equal-length rows). -/
def vecAdd (a b : List ℝ) : List ℝ := List.zipWith (· + ·) a b

/-- Scalar multiple of a vector. -/
def smulVec (w : ℝ) (v : List ℝ) : List ℝ := v.map fun x => w * x

/-- Sum of a list of vectors of width `nf`, starting from the zero vector. -/
def vecSum (nf : Nat) (l : List (List ℝ)) : List ℝ :=
  l.foldr vecAdd (List.replicate nf 0)

end ClusterKit

namespace Hdbscan

/-- Mirrors `hdbscan_wrapper.rs` line 25:
`min_samples.min(n_samples.saturating_sub(1)).max(1)`
(ℕ subtraction is saturating, exactly like `saturating_sub`). -/
def adjusted_min_samples (min_samples n_samples : Nat) : Nat :=
  Nat.max (Nat.min min_samples (n_samples - 1)) 1

/-- Mirrors `hdbscan_wrapper.rs` line 26:
`min_cluster_size.min(n_samples).max(2)`. -/
def adjusted_min_cluster_size (min_cluster_size n_samples : Nat) : Nat :=
  Nat.max (Nat.min min_cluster_size n_samples) 2

/-- Result shape produced by `hdbscan_fit`: labels plus the synthesized
per-point probability and outlier-score fields. -/
structure HdbscanResult where
  labels : List Int
  probabilities : List ℝ
  outlier_scores : List ℝ

/-- Mirrors `hdbscan_fit` in `hdbscan_wrapper.rs`.  The external
cluster-extraction routine (the `hdbscan` crate) is the oracle
`cluster`, invoked with the data and the two adjusted parameters;
label `-1` denotes noise.  The wrapper clamps the parameters, never
raising an error itself, and synthesizes probability 1.0 / 0.0 and
outlier score 0.0 / 1.0 for clustered / noise points. -/
def hdbscan_fit (data : List (List ℝ)) (min_samples min_cluster_size : Nat)
    (cluster : List (List ℝ) → Nat → Nat → Except Unit (List Int)) :
    Except Unit HdbscanResult :=
  let n_samples := data.length
  let ams := adjusted_min_samples min_samples n_samples
  let amcs := adjusted_min_cluster_size min_cluster_size n_samples
  match cluster data ams amcs with
  | Except.error e => Except.error e
  | Except.ok labels =>
      Except.ok
        { labels := labels
          probabilities := labels.map fun l => if l = -1 then 0 else 1
          outlier_scores := labels.map fun l => if l = -1 then 1 else 0 }

end Hdbscan

namespace Hnsw

/-- Association-list lookup, modelling `HashMap::get`. -/
def lookupA {α β : Type} [DecidableEq α] : List (α × β) → α → Option β
  | [], _ => none
  | p :: rest, k => if p.1 = k then some p.2 else lookupA rest k

/-- Association-list membership test, modelling `HashMap::contains_key`. -/
def containsA {α β : Type} [DecidableEq α] (l : List (α × β)) (k : α) : Bool :=
  (lookupA l k).isSome

/-- Association-list insert that overwrites an existing key, modelling
`HashMap::insert`. -/
def insertA {α β : Type} [DecidableEq α] : List (α × β) → α → β → List (α × β)
  | [], k, v => [(k, v)]
  | p :: rest, k, v => if p.1 = k then (k, v) :: rest else p :: insertA rest k v

/-- Mirrors the `DistanceType` enum in `hnsw.rs`. -/
inductive DistanceType
  | Euclidean
  | Cosine
  | InnerProduct
  deriving DecidableEq

/-- The space-name string written by `save` for each `DistanceType`. -/
def spaceName : DistanceType → String
  | DistanceType.Euclidean => "euclidean"
  | DistanceType.Cosine => "cosine"
  | DistanceType.InnerProduct => "inner_product"

/-- The space-name parse performed by `load`; an unrecognized name is the
`CorruptPersistedState` failure. -/
def parseSpace (s : String) : Option DistanceType :=
  if s = "euclidean" then some DistanceType.Euclidean
  else if s = "cosine" then some DistanceType.Cosine
  else if s = "inner_product" then some DistanceType.InnerProduct
  else none

/-- Mirrors `ItemMetadata` in `hnsw.rs`. -/
structure ItemMetadata where
  label : String
  metadata : Option (List (String × String))
  deriving DecidableEq

/-- Error taxonomy of the index operations (spec §7 names). -/
inductive HErr
  | DimensionMismatch
  | DuplicateLabel
  | BatchLabelMissing
  | CorruptPersistedState
  deriving DecidableEq

/-- Mirrors the `HnswIndex` struct: the graph structure (modelled as the
list of inserted `(vector, internal id)` pairs), the immutable dimension
and distance space, the metadata table, the monotonic id counter, the
label table and the mutable search-breadth parameter `ef_search`. -/
structure IndexState where
  points : List (List ℝ × Nat)
  dim : Nat
  space : DistanceType
  metadata_store : List (Nat × ItemMetadata)
  current_id : Nat
  label_to_id : List (String × Nat)
  ef_search : Nat

/-- Mirrors `HnswIndex::size`: the length of the metadata table. -/
def size (s : IndexState) : Nat := s.metadata_store.length

/-- The committed part of `add_item` (`hnsw.rs` lines 161-192): read the
counter as the internal id, register the label, bump the counter, store
the metadata record, insert into the graph. -/
def commitItem (s : IndexState) (label : String) (vector : List ℝ)
    (md : Option (List (String × String))) : IndexState :=
  let id := s.current_id
  { s with
    label_to_id := insertA s.label_to_id label id
    current_id := id + 1
    metadata_store := insertA s.metadata_store id ⟨label, md⟩
    points := s.points ++ [(vector, id)] }

/-- Mirrors `HnswIndex::add_item`.  The vector is dimension-checked first
(`parse_vector`).  When the label is omitted, one is generated from the
id counter, which is incremented by the generation itself (`hnsw.rs`
lines 147-152).  A label already present fails with `DuplicateLabel`
before any further mutation. -/
def add_item (s : IndexState) (vector : List ℝ) (labelOpt : Option String)
    (md : Option (List (String × String))) : IndexState × Except HErr Unit :=
  if vector.length ≠ s.dim then (s, Except.error HErr.DimensionMismatch)
  else
    match labelOpt with
    | some label =>
        if containsA s.label_to_id label then (s, Except.error HErr.DuplicateLabel)
        else (commitItem s label vector md, Except.ok ())
    | none =>
        let label := toString s.current_id
        let s1 := { s with current_id := s.current_id + 1 }
        if containsA s1.label_to_id label then (s1, Except.error HErr.DuplicateLabel)
        else (commitItem s1 label vector md, Except.ok ())

/-- The per-row loop of `HnswIndex::add_batch` (`hnsw.rs` lines 215-252):
each row is dimension-checked, its label fetched (erroring when the label
list is shorter than the batch) or generated from the counter (which the
generation increments), checked against the label table, and registered
with a fresh id; the `(vector, id)` pairs and metadata records are
accumulated locally and only committed after the whole loop. -/
def add_batch_go (labelsOpt : Option (List String)) :
    IndexState → List (List ℝ) → Nat → List (List ℝ × Nat) →
    List (Nat × ItemMetadata) →
    IndexState × Except HErr (List (List ℝ × Nat) × List (Nat × ItemMetadata))
  | s, [], _, accPts, accMeta => (s, Except.ok (accPts, accMeta))
  | s, v :: rest, i, accPts, accMeta =>
    if v.length ≠ s.dim then (s, Except.error HErr.DimensionMismatch)
    else
      match labelsOpt with
      | some ls =>
          match ls.get? i with
          | none => (s, Except.error HErr.BatchLabelMissing)
          | some label =>
              if containsA s.label_to_id label then
                (s, Except.error HErr.DuplicateLabel)
              else
                let id := s.current_id
                let s1 := { s with
                  label_to_id := insertA s.label_to_id label id
                  current_id := id + 1 }
                add_batch_go labelsOpt s1 rest (i + 1) (accPts ++ [(v, id)])
                  (accMeta ++ [(id, ⟨label, none⟩)])
      | none =>
          let label := toString s.current_id
          let s1 := { s with current_id := s.current_id + 1 }
          if containsA s1.label_to_id label then
            (s1, Except.error HErr.DuplicateLabel)
          else
            let id := s1.current_id
            let s2 := { s1 with
              label_to_id := insertA s1.label_to_id label id
              current_id := id + 1 }
            add_batch_go labelsOpt s2 rest (i + 1) (accPts ++ [(v, id)])
              (accMeta ++ [(id, ⟨label, none⟩)])

/-- Proof-side restatement of `add_batch_go` for an explicit label list:
identical per-row processing, but recursing on the list of remaining
labels instead of indexing with `ls.get? i`.  Used to relate the indexed
loop to structural induction. -/
def add_batch_goL :
    IndexState → List (List ℝ) → List String → List (List ℝ × Nat) →
    List (Nat × ItemMetadata) →
    IndexState × Except HErr (List (List ℝ × Nat) × List (Nat × ItemMetadata))
  | s, [], _, accPts, accMeta => (s, Except.ok (accPts, accMeta))
  | s, v :: rest, labels, accPts, accMeta =>
    if v.length ≠ s.dim then (s, Except.error HErr.DimensionMismatch)
    else
      match labels with
      | [] => (s, Except.error HErr.BatchLabelMissing)
      | label :: ltail =>
          if containsA s.label_to_id label then
            (s, Except.error HErr.DuplicateLabel)
          else
            let id := s.current_id
            let s1 := { s with
              label_to_id := insertA s.label_to_id label id
              current_id := id + 1 }
            add_batch_goL s1 rest ltail (accPts ++ [(v, id)])
              (accMeta ++ [(id, ⟨label, none⟩)])

/-- Mirrors `HnswIndex::add_batch`: run the per-row loop; on success
commit the accumulated metadata records and insert the accumulated
points into the graph (`parallel_insert` and the serial loop insert the
same set of points, so the `parallel` flag does not change the model). -/
def add_batch (s : IndexState) (rows : List (List ℝ))
    (labelsOpt : Option (List String)) (_parallel : Bool) :
    IndexState × Except HErr Unit :=
  match add_batch_go labelsOpt s rows 0 [] [] with
  | (s1, Except.error e) => (s1, Except.error e)
  | (s1, Except.ok (pts, metas)) =>
      ({ s1 with
          metadata_store := metas.foldl (fun m q => insertA m q.1 q.2) s1.metadata_store
          points := s1.points ++ pts }, Except.ok ())

/-- Result assembly of `search` (`hnsw.rs` lines 316-321): neighbors whose
internal id has no metadata record are silently skipped. -/
def assembleResults (meta : List (Nat × ItemMetadata))
    (neighbors : List (Nat × ℝ)) : List (String × ℝ) :=
  neighbors.filterMap fun q => (lookupA meta q.1).map fun m => (m.label, q.2)

/-- Mirrors `HnswIndex::search`.  The query is dimension-checked first;
an explicit `ef` is then written into `ef_search` before the graph query
runs, and the stored value is what is passed to the graph search.  The
graph search itself is external (`hnsw_rs`), modelled by the oracle
`hnswSearch query k ef`. -/
def search (s : IndexState) (query : List ℝ) (k : Nat) (efOpt : Option Nat)
    (hnswSearch : List ℝ → Nat → Nat → List (Nat × ℝ)) :
    IndexState × Except HErr (List (String × ℝ)) :=
  if query.length ≠ s.dim then (s, Except.error HErr.DimensionMismatch)
  else
    let s1 := match efOpt with
      | some e => { s with ef_search := e }
      | none => s
    (s1, Except.ok (assembleResults s1.metadata_store (hnswSearch query k s1.ef_search)))

/-- Mirrors `HnswIndex::set_ef`. -/
def set_ef (s : IndexState) (ef : Nat) : IndexState := { s with ef_search := ef }

/-- The sidecar record written by `save` (`hnsw.rs` lines 515-525), in
field order: metadata table, label-to-id table, next-id counter,
dimension, distance-space name.  `ef_search` is not among the fields. -/
structure SavedIndex where
  metadata_store : List (Nat × ItemMetadata)
  label_to_id : List (String × Nat)
  current_id : Nat
  dim : Nat
  space : String

/-- Mirrors the sidecar part of `HnswIndex::save` (the graph blob is the
external library's `file_dump`, out of scope). -/
def save (s : IndexState) : SavedIndex :=
  { metadata_store := s.metadata_store
    label_to_id := s.label_to_id
    current_id := s.current_id
    dim := s.dim
    space := spaceName s.space }

/-- Mirrors `HnswIndex::load`: rebuild the index from the sidecar plus the
externally reloaded graph (`graph` stands for the blob read back by
`HnswIo::load_hnsw`); an unrecognized space name fails; `ef_search` is
set to the constant 200 ("Use default ef_construction as ef_search"). -/
def load (saved : SavedIndex) (graph : List (List ℝ × Nat)) :
    Except HErr IndexState :=
  match parseSpace saved.space with
  | none => Except.error HErr.CorruptPersistedState
  | some sp =>
      Except.ok
        { points := graph
          dim := saved.dim
          space := sp
          metadata_store := saved.metadata_store
          current_id := saved.current_id
          label_to_id := saved.label_to_id
          ef_search := 200 }

/-- The empty index produced by `HnswIndex::new` for a given dimension
(Euclidean is the only supported space; `ef_search` starts at
`ef_construction`, default 200). -/
def newIndex (dim ef_construction : Nat) : IndexState :=
  { points := []
    dim := dim
    space := DistanceType.Euclidean
    metadata_store := []
    current_id := 0
    label_to_id := []
    ef_search := ef_construction }

end Hnsw

namespace Clustering

open ClusterKit

/-- The inner assignment loop of `kmeans` (`clustering.rs` lines 74-83):
scan the centroids with running minimum distance (`min_dist`, starting at
infinity, modelled by `none`) and running best index (`best_cluster`,
starting at 0); a centroid strictly closer than the running minimum
replaces it. -/
noncomputable def assignPointGo (p : List ℝ) :
    List (List ℝ) → Nat → Option ℝ → Nat → Option ℝ × Nat
  | [], _, md, best => (md, best)
  | c :: rest, j, md, best =>
    let d := euclidean_distance p c
    match md with
    | none => assignPointGo p rest (j + 1) (some d) j
    | some m =>
        if d < m then assignPointGo p rest (j + 1) (some d) j
        else assignPointGo p rest (j + 1) (some m) best

/-- Cluster index assigned to point `p` by one assignment pass. -/
noncomputable def assignPoint (cs : List (List ℝ)) (p : List ℝ) : Nat :=
  (assignPointGo p cs 0 none 0).2

/-- The `changed` flag of the assignment pass: set when some point's new
label differs from its previous one. -/
def anyChanged (old new : List Nat) : Bool :=
  (old.zip new).any fun q => q.1 != q.2

/-- The centroid update for one cluster `j` (`clustering.rs` lines
97-111): accumulate the componentwise sum and the count of the points
labelled `j`; when the count is positive the centroid becomes
`sum / count`, otherwise it is left unchanged. -/
noncomputable def updateCentroid (data : List (List ℝ)) (labels : List Nat)
    (nf j : Nat) (old : List ℝ) : List ℝ :=
  let sc := (data.zip labels).foldl
    (fun acc q => if q.2 = j then (vecAdd acc.1 q.1, acc.2 + 1) else acc)
    (List.replicate nf (0:ℝ), (0:Nat))
  if 0 < sc.2 then sc.1.map fun x => x / (sc.2 : ℝ) else old

/-- The centroid update pass over all `k` clusters. -/
noncomputable def updateCentroids (data : List (List ℝ)) (k nf : Nat)
    (labels : List Nat) (cs : List (List ℝ)) : List (List ℝ) :=
  (List.range k).map fun j => updateCentroid data labels nf j (cs.getD j [])

/-- The K-means iteration loop (`clustering.rs` lines 69-114): assign all
points, break when nothing changed and this is not the first iteration
(`if !changed && iteration > 0`), otherwise update the centroids and
continue.  `fuel` is the number of remaining iterations
(`max_iter - iteration`), `iter` the current iteration index. -/
noncomputable def kmeansGo (data : List (List ℝ)) (k nf : Nat) :
    Nat → Nat → List Nat → List (List ℝ) → List Nat × List (List ℝ)
  | 0, _, labels, cs => (labels, cs)
  | fuel + 1, iter, labels, cs =>
    let newLabels := data.map (assignPoint cs)
    if anyChanged labels newLabels = false ∧ 0 < iter then (newLabels, cs)
    else kmeansGo data k nf fuel (iter + 1) newLabels
      (updateCentroids data k nf newLabels cs)

/-- Distance from `p` to the nearest already-chosen centroid
(`clustering.rs` lines 229-239; the running minimum starts at infinity
and the centroid list is nonempty at every use, so it reduces to a fold
from the first centroid's distance; the `[]` case is unreachable). -/
noncomputable def minDistToCent (p : List ℝ) : List (List ℝ) → ℝ
  | [] => 0
  | c :: rest =>
    rest.foldl
      (fun m c2 => let d := euclidean_distance p c2; if d < m then d else m)
      (euclidean_distance p c)

/-- Roulette-wheel selection over cumulative squared distances
(`clustering.rs` lines 256-265): the first point whose cumulative sum
reaches `randVal` is chosen; `none` when the loop exhausts without a
pick (in the source the centroid row then keeps its zero
initialization). -/
noncomputable def roulette : List (List ℝ × ℝ) → ℝ → ℝ → Option (List ℝ)
  | [], _, _ => none
  | q :: rest, cumsum, randVal =>
    if cumsum + q.2 ≥ randVal then some q.1
    else roulette rest (cumsum + q.2) randVal

/-- Choice of centroid `i ≥ 1` in `kmeans_plusplus` (`clustering.rs`
lines 228-266): compute each point's distance to the nearest chosen
centroid; if the total of the squared distances is zero, fall back to
`data[i]` (or `data[0]` when `i` is out of range); otherwise pick by
roulette wheel with `rand_val = r * total`, where `r` models the
`rng.gen::<f64>()` draw. -/
noncomputable def ppStep (data : List (List ℝ)) (nf : Nat)
    (cent : List (List ℝ)) (i : Nat) (r : ℝ) : List ℝ :=
  let distances := data.map fun p => minDistToCent p cent
  let total := (distances.map fun d => d * d).sum
  if total = 0 then
    (if i < data.length then data.getD i [] else data.getD 0 [])
  else
    (roulette (data.zip (distances.map fun d => d * d)) 0 (r * total)).getD
      (List.replicate nf 0)

/-- The loop over centroids `1, ..., k-1` of `kmeans_plusplus`. -/
noncomputable def ppGo (data : List (List ℝ)) (nf : Nat) (roll : Nat → ℝ) :
    Nat → Nat → List (List ℝ) → List (List ℝ)
  | 0, _, cent => cent
  | fuel + 1, i, cent =>
    ppGo data nf roll fuel (i + 1) (cent ++ [ppStep data nf cent i (roll i)])

/-- Mirrors `kmeans_plusplus`: the first centroid is the data point at
`firstIdx` (the `rng.gen_range(0..n_samples)` draw); the rest are chosen
by `ppStep`, with `roll i` the `rng.gen::<f64>()` draw of step `i`. -/
noncomputable def kmeans_plusplus (data : List (List ℝ)) (k nf : Nat)
    (firstIdx : Nat) (roll : Nat → ℝ) : List (List ℝ) :=
  ppGo data nf roll (k - 1) 1 [data.getD firstIdx []]

/-- Inertia (`clustering.rs` lines 117-122): sum of squared distances
from each point to its assigned centroid. -/
noncomputable def inertia (data : List (List ℝ)) (labels : List Nat)
    (cs : List (List ℝ)) : ℝ :=
  ((data.zip labels).map fun q => euclidean_distance q.1 (cs.getD q.2 []) ^ 2).sum

/-- Mirrors `kmeans`: validate non-empty data and `k ≤ n_samples`, seed
centroids with K-means++, run the iteration loop (labels start as the
all-zero vector), and return labels, centroids and inertia. -/
noncomputable def kmeans (data : List (List ℝ)) (k max_iter : Nat)
    (firstIdx : Nat) (roll : Nat → ℝ) :
    Except Unit (List Nat × List (List ℝ) × ℝ) :=
  if data.length = 0 then Except.error ()
  else if k > data.length then Except.error ()
  else
    let nf := (data.headI).length
    let cs0 := kmeans_plusplus data k nf firstIdx roll
    let res := kmeansGo data k nf max_iter 0 (List.replicate data.length 0) cs0
    Except.ok (res.1, res.2, inertia data res.1 res.2)

/-- Spec-side reading of the assignment rule: `j` is a nearest centroid
under Euclidean distance, and ties are broken by the lowest centroid
index — every centroid strictly before `j` is strictly farther. -/
def isNearestFirst (cs : List (List ℝ)) (p : List ℝ) (j : Nat) : Prop :=
  j < cs.length ∧
  (∀ j2, j2 < cs.length →
    euclidean_distance p (cs.getD j []) ≤ euclidean_distance p (cs.getD j2 [])) ∧
  (∀ j2, j2 < j →
    euclidean_distance p (cs.getD j []) < euclidean_distance p (cs.getD j2 []))

/-- Spec-side reading of the centroid update: the arithmetic mean of the
points assigned to cluster `j`, the centroid unchanged when no point is
assigned to it. -/
noncomputable def clusterMean (data : List (List ℝ)) (labels : List Nat)
    (nf j : Nat) (old : List ℝ) : List ℝ :=
  let pts := ((data.zip labels).filter fun q => q.2 == j).map Prod.fst
  if pts.length = 0 then old
  else (ClusterKit.vecSum nf pts).map fun x => x / (pts.length : ℝ)

/-- Helper: leftmost minimum of the distances to a centroid list,
returned as (minimal distance, index of its first occurrence). -/
noncomputable def firstMinIdx (p : List ℝ) : List (List ℝ) → ℝ × Nat
  | [] => (0, 0)
  | [c] => (euclidean_distance p c, 0)
  | c :: c2 :: rest =>
    let r := firstMinIdx p (c2 :: rest)
    if euclidean_distance p c ≤ r.1 then (euclidean_distance p c, 0)
    else (r.1, r.2 + 1)

end Clustering

namespace Embedder

open ClusterKit

/-- Error taxonomy of the embedding pipeline (spec §7 names). -/
inductive UErr
  | RowLengthMismatch
  | EmptyInput
  | GraphBuildFailed
  | EmbeddingFailed
  | NoPointsEmbedded
  | ModelNotFitted
  | NoEmbeddings
  deriving DecidableEq

/-- Mirrors the `RustUMAP` struct in `embedder.rs`: configuration plus
the optional trained state (training vectors and their embeddings). -/
structure UmapModel where
  n_components : Nat
  n_neighbors : Nat
  random_seed : Option Nat
  nb_grad_batch : Nat
  nb_sampling_by_edge : Nat
  training_data : Option (List (List ℝ))
  training_embeddings : Option (List (List ℝ))

/-- Rectangularity check of `fit_transform` (`embedder.rs` lines
161-166): every row must have the first row's length. -/
def rowsRect : List (List ℝ) → Bool
  | [] => true
  | r0 :: rest => rest.all fun r => r.length == r0.length

/-- Mirrors `RustUMAP::fit_transform`.  The private index build, the
k-NN-graph derivation (`kgraph_from_hnsw_all`) and the solver
(`Embedder::embed`) are external; `graphOk` models graph-build success,
`embedCount` the solver's `Result<usize>` (`none` = solver error) and
`embedded` the solver's embedded matrix.  Only a fully successful run
stores the training state; every failure returns the model unchanged. -/
noncomputable def fit_transform (m : UmapModel) (rows : List (List ℝ))
    (graphOk : Bool) (embedCount : Option Nat) (embedded : List (List ℝ)) :
    UmapModel × Except UErr (List (List ℝ)) :=
  if rowsRect rows = false then (m, Except.error UErr.RowLengthMismatch)
  else if rows.isEmpty then (m, Except.error UErr.EmptyInput)
  else if graphOk = false then (m, Except.error UErr.GraphBuildFailed)
  else
    match embedCount with
    | none => (m, Except.error UErr.EmbeddingFailed)
    | some 0 => (m, Except.error UErr.NoPointsEmbedded)
    | some (_ + 1) =>
        ({ m with training_data := some rows, training_embeddings := some embedded },
          Except.ok embedded)

/-- The distance/index pair list of `transform` (`embedder.rs` lines
365-372): distance from the input row to every stored training vector,
paired with the vector's index, sorted ascending by distance
(`sort_by` on `partial_cmp` of the first component). -/
noncomputable def sortDist (row : List ℝ) (td : List (List ℝ)) : List (ℝ × Nat) :=
  List.insertionSort (fun a b => a.1 ≤ b.1)
    (td.enum.map fun q => (euclidean_distance row q.2, q.1))

/-- Componentwise `avg_embedding[i] += val * weight` over one stored
embedding row (`embedder.rs` lines 383-385).  The accumulator always has
length `n_components`; rows longer than that would make the source panic
and are outside every theorem's hypotheses. -/
noncomputable def addScaled (w : ℝ) : List ℝ → List ℝ → List ℝ
  | acc, [] => acc
  | [], _ :: _ => []
  | a :: acc, v :: row => (a + v * w) :: addScaled w acc row

/-- Mirrors the per-row body of `RustUMAP::transform` (`embedder.rs`
lines 363-399): take the `min(n_neighbors, n)` nearest training vectors,
accumulate `weight = 1 / (dist + 0.001)` times their embeddings together
with the total weight, then divide componentwise by the total weight. -/
noncomputable def transformRow (td te : List (List ℝ)) (nn ncomp : Nat)
    (row : List ℝ) : List ℝ :=
  let k := Nat.min nn td.length
  let sel := (sortDist row td).take k
  let acc := sel.foldl
    (fun acc q =>
      let w := 1 / (q.1 + 1 / 1000)
      (addScaled w acc.1 (te.getD q.2 []), acc.2 + w))
    (List.replicate ncomp (0:ℝ), (0:ℝ))
  acc.1.map fun x => x / acc.2

/-- Mirrors `RustUMAP::transform`: fails with the model-not-fitted
errors when no training state exists, otherwise maps the per-row
interpolation over the input rows. -/
noncomputable def transform (m : UmapModel) (rows : List (List ℝ)) :
    Except UErr (List (List ℝ)) :=
  match m.training_data with
  | none => Except.error UErr.ModelNotFitted
  | some td =>
    match m.training_embeddings with
    | none => Except.error UErr.NoEmbeddings
    | some te =>
        Except.ok (rows.map fun row =>
          transformRow td te m.n_neighbors m.n_components row)

instance : IsTotal (ℝ × Nat) (fun a b => a.1 ≤ b.1) :=
  ⟨fun a b => le_total a.1 b.1⟩

instance : IsTrans (ℝ × Nat) (fun a b => a.1 ≤ b.1) :=
  ⟨fun _ _ _ h1 h2 => le_trans h1 h2⟩

/-- Spec-side weight: `weight(i) = 1 / (distance(i) + ε)`, `ε = 0.001`. -/
noncomputable def specWeight (d : ℝ) : ℝ := 1 / (d + 1 / 1000)

/-- Spec-side reading of the per-row transform: the weighted average of
the selected neighbors' stored embeddings, the weights normalized so
they sum to 1. -/
noncomputable def specTransformRow (td te : List (List ℝ)) (nn ncomp : Nat)
    (row : List ℝ) : List ℝ :=
  let k := Nat.min nn td.length
  let sel := (sortDist row td).take k
  let W := (sel.map fun q => specWeight q.1).sum
  vecSum ncomp (sel.map fun q => smulVec (specWeight q.1 / W) (te.getD q.2 []))

end Embedder

/-- Claim C3: for every dataset of `n_samples` points and every requested
`min_samples` and `min_cluster_size`, the density-clustering wrapper passes
to the external routine exactly `min_samples` clamped to
`max(1, min(min_samples, n_samples - 1))` and `min_cluster_size` clamped to
`max(2, min(min_cluster_size, n_samples))`, raising no error for
out-of-range requests; in particular with `n_samples = 5`,
`min_samples = 10` becomes `4` and `min_cluster_size = 10` becomes `5`. -/
theorem C3_hdbscan_clamp :
    (∀ ms n, Hdbscan.adjusted_min_samples ms n = Nat.max 1 (Nat.min ms (n - 1))) ∧
    (∀ mcs n, Hdbscan.adjusted_min_cluster_size mcs n = Nat.max 2 (Nat.min mcs n)) ∧
    Hdbscan.adjusted_min_samples 10 5 = 4 ∧
    Hdbscan.adjusted_min_cluster_size 10 5 = 5 ∧
    (∀ data ms mcs cluster,
      Hdbscan.hdbscan_fit data ms mcs cluster =
        match cluster data (Nat.max 1 (Nat.min ms (data.length - 1)))
            (Nat.max 2 (Nat.min mcs data.length)) with
        | Except.error e => Except.error e
        | Except.ok labels =>
            Except.ok
              { labels := labels
                probabilities := labels.map fun l => if l = -1 then 0 else 1
                outlier_scores := labels.map fun l => if l = -1 then 1 else 0 }) := by
  refine ⟨fun ms n => Nat.max_comm _ _, fun mcs n => Nat.max_comm _ _, rfl, rfl, ?_⟩
  intro data ms mcs cluster
  simp only [Hdbscan.hdbscan_fit, Hdbscan.adjusted_min_samples,
    Hdbscan.adjusted_min_cluster_size, Nat.max_comm]

/-- Lookup after inserting the same key returns the inserted value
(`HashMap::insert` then `get`). -/
theorem Hnsw.lookupA_insertA_self {α β : Type} [DecidableEq α]
    (m : List (α × β)) (k : α) (v : β) :
    Hnsw.lookupA (Hnsw.insertA m k v) k = some v := by
  induction m with
  | nil => simp [Hnsw.insertA, Hnsw.lookupA]
  | cons p rest ih =>
    by_cases h : p.1 = k
    · simp [Hnsw.insertA, h, Hnsw.lookupA]
    · simp [Hnsw.insertA, h, Hnsw.lookupA, ih]

/-- Lookup of a different key is unaffected by an insert. -/
theorem Hnsw.lookupA_insertA_ne {α β : Type} [DecidableEq α]
    (m : List (α × β)) (k k2 : α) (v : β) (h : k2 ≠ k) :
    Hnsw.lookupA (Hnsw.insertA m k v) k2 = Hnsw.lookupA m k2 := by
  have hne : ¬ (k = k2) := fun he => h he.symm
  induction m with
  | nil => simp [Hnsw.insertA, Hnsw.lookupA, hne]
  | cons p rest ih =>
    by_cases hp : p.1 = k
    · subst hp
      simp [Hnsw.insertA, Hnsw.lookupA, hne]
    · by_cases hp2 : p.1 = k2
      · simp [Hnsw.insertA, hp, Hnsw.lookupA, hp2, hne, h]
      · simp [Hnsw.insertA, hp, Hnsw.lookupA, hp2, ih]

/-- Every binding of an updated map is the new binding or an old one. -/
theorem Hnsw.mem_insertA {α β : Type} [DecidableEq α]
    (m : List (α × β)) (k : α) (v : β) (p : α × β) :
    p ∈ Hnsw.insertA m k v → p = (k, v) ∨ p ∈ m := by
  induction m with
  | nil => simp [Hnsw.insertA]
  | cons q rest ih =>
    by_cases h : q.1 = k
    · simp only [Hnsw.insertA, h, if_pos, List.mem_cons]
      rintro (hp | hp)
      · exact Or.inl hp
      · exact Or.inr (Or.inr hp)
    · simp only [Hnsw.insertA, h, if_neg, not_false_iff, List.mem_cons]
      rintro (hp | hp)
      · exact Or.inr (Or.inl hp)
      · rcases ih hp with h2 | h2
        · exact Or.inl h2
        · exact Or.inr (Or.inr h2)

/-- `contains_key` is false exactly when the lookup misses. -/
theorem Hnsw.containsA_eq_false {α β : Type} [DecidableEq α]
    (m : List (α × β)) (k : α) :
    Hnsw.containsA m k = false ↔ Hnsw.lookupA m k = none := by
  unfold Hnsw.containsA
  cases h : Hnsw.lookupA m k <;> simp

/-- Claim C4 counterexample: on a fresh index, a single `insert` with the
label omitted succeeds, but the entry receives internal id 1, not 0: the
label is generated from the counter (label "0"), the generation itself
increments the counter, and the id is then read from the incremented
counter (leaving it at 2 after the insert).  The claim's "the i-th
successfully inserted entry receives internal id i" (and "assigned
monotonically starting at 0") therefore fails already for the very first
insert with an omitted label. -/
theorem C4_counterexample :
    (Hnsw.add_item (Hnsw.newIndex 1 200) [0] none none).2 = Except.ok () ∧
    Hnsw.lookupA
      (Hnsw.add_item (Hnsw.newIndex 1 200) [0] none none).1.label_to_id "0" =
      some 1 ∧
    (Hnsw.add_item (Hnsw.newIndex 1 200) [0] none none).1.current_id = 2 ∧
    (1 : Nat) ≠ 0 :=
  ⟨rfl, rfl, rfl, by decide⟩

/-- Claim C4, amended: internal ids are assigned from the monotonic
counter and never reused — with an explicit fresh label the entry
receives the current counter value (so with explicit labels throughout,
the i-th insert receives id i), while with the label omitted the
generated label is the counter value at the time of the call but the
entry's id is that value plus one, because generating the label consumes
one counter increment and assigning the id another.  In all cases every
registered id stays strictly below the counter, so no id is ever
reused. -/
theorem C4_id_assignment (s : Hnsw.IndexState) (v : List ℝ)
    (md : Option (List (String × String))) (hdim : v.length = s.dim) :
    (∀ l, Hnsw.lookupA s.label_to_id l = none →
      Hnsw.add_item s v (some l) md = (Hnsw.commitItem s l v md, Except.ok ()) ∧
      Hnsw.lookupA (Hnsw.commitItem s l v md).label_to_id l = some s.current_id ∧
      (Hnsw.commitItem s l v md).current_id = s.current_id + 1) ∧
    (Hnsw.lookupA s.label_to_id (toString s.current_id) = none →
      (Hnsw.add_item s v none md).2 = Except.ok () ∧
      Hnsw.lookupA (Hnsw.add_item s v none md).1.label_to_id
          (toString s.current_id) = some (s.current_id + 1) ∧
      (Hnsw.add_item s v none md).1.current_id = s.current_id + 2) ∧
    ((∀ p ∈ s.label_to_id, p.2 < s.current_id) →
      ∀ lopt, ∀ p ∈ (Hnsw.add_item s v lopt md).1.label_to_id,
        p.2 < (Hnsw.add_item s v lopt md).1.current_id) := by
  have hdim2 : ¬ v.length ≠ s.dim := by simp [hdim]
  refine ⟨?_, ?_, ?_⟩
  · intro l hl
    have hc : Hnsw.containsA s.label_to_id l = false :=
      (Hnsw.containsA_eq_false _ _).mpr hl
    refine ⟨by simp [Hnsw.add_item, hdim2, hc], ?_, rfl⟩
    simp [Hnsw.commitItem, Hnsw.lookupA_insertA_self]
  · intro hl
    have hc : Hnsw.containsA s.label_to_id (toString s.current_id) = false :=
      (Hnsw.containsA_eq_false _ _).mpr hl
    refine ⟨by simp [Hnsw.add_item, hdim2, hc], ?_, ?_⟩
    · simp [Hnsw.add_item, hdim2, hc, Hnsw.commitItem, Hnsw.lookupA_insertA_self]
    · simp [Hnsw.add_item, hdim2, hc, Hnsw.commitItem]
  · intro hinv lopt
    cases lopt with
    | some l =>
      by_cases hc : Hnsw.containsA s.label_to_id l
      · simpa [Hnsw.add_item, hdim2, hc] using hinv
      · simp only [Hnsw.add_item, hdim2, if_neg, not_false_iff, hc,
          Bool.false_eq_true, if_false]
        intro p hp
        rcases Hnsw.mem_insertA _ _ _ _ hp with h2 | h2
        · subst h2; exact Nat.lt_succ_self _
        · exact Nat.lt_succ_of_lt (hinv p h2)
    | none =>
      by_cases hc : Hnsw.containsA s.label_to_id (toString s.current_id)
      · simp only [Hnsw.add_item, hdim2, if_neg, not_false_iff, hc, if_true]
        intro p hp
        exact Nat.lt_succ_of_lt (hinv p hp)
      · simp only [Hnsw.add_item, hdim2, if_neg, not_false_iff, hc,
          Bool.false_eq_true, if_false]
        intro p hp
        rcases Hnsw.mem_insertA _ _ _ _ hp with h2 | h2
        · subst h2; exact Nat.lt_succ_self _
        · exact Nat.lt_succ_of_lt (Nat.lt_succ_of_lt (hinv p h2))

/-- Witness for C4: on a fresh index the omitted-label insert generates
label "0" and assigns id 1, with the counter left at 2. -/
theorem C4_id_assignment_witness :
    (([(0:ℝ)] : List ℝ).length = (Hnsw.newIndex 1 200).dim) ∧
    Hnsw.lookupA (Hnsw.newIndex 1 200).label_to_id
      (toString (Hnsw.newIndex 1 200).current_id) = none ∧
    ((Hnsw.add_item (Hnsw.newIndex 1 200) [0] none none).2 = Except.ok () ∧
      Hnsw.lookupA (Hnsw.add_item (Hnsw.newIndex 1 200) [0] none none).1.label_to_id
        (toString (Hnsw.newIndex 1 200).current_id) =
        some ((Hnsw.newIndex 1 200).current_id + 1) ∧
      (Hnsw.add_item (Hnsw.newIndex 1 200) [0] none none).1.current_id =
        (Hnsw.newIndex 1 200).current_id + 2) :=
  ⟨rfl, rfl, (C4_id_assignment (Hnsw.newIndex 1 200) [0] none rfl).2.1 rfl⟩

/-- The indexed batch loop equals the label-list batch loop started at
the dropped label list. -/
theorem Hnsw.add_batch_go_eq_goL (ls : List String) (rows : List (List ℝ)) :
    ∀ (s : Hnsw.IndexState) (i : Nat) (aP : List (List ℝ × Nat))
      (aM : List (Nat × Hnsw.ItemMetadata)),
    Hnsw.add_batch_go (some ls) s rows i aP aM =
      Hnsw.add_batch_goL s rows (ls.drop i) aP aM := by
  induction rows with
  | nil => intro s i aP aM; rfl
  | cons v rest ih =>
    intro s i aP aM
    simp only [Hnsw.add_batch_go, Hnsw.add_batch_goL]
    by_cases hdim : v.length ≠ s.dim
    · rw [if_pos hdim]
      by_cases hi : i < ls.length
      · rw [List.drop_eq_getElem_cons hi, if_pos hdim]
      · rw [List.drop_eq_nil_of_le (Nat.le_of_not_lt hi), if_pos hdim]
    · rw [if_neg hdim]
      by_cases hi : i < ls.length
      · have hget : ls.get? i = some ls[i] := by
          rw [List.get?_eq_getElem?]
          exact List.getElem?_eq_getElem hi
        rw [List.drop_eq_getElem_cons hi, if_neg hdim, hget]
        simp only
        by_cases hc : Hnsw.containsA s.label_to_id ls[i]
        · rw [if_pos hc, if_pos hc]
        · rw [if_neg hc, if_neg hc]
          exact ih _ _ _ _
      · have hget : ls.get? i = none :=
          List.get?_eq_none.mpr (Nat.le_of_not_lt hi)
        rw [List.drop_eq_nil_of_le (Nat.le_of_not_lt hi), if_neg hdim, hget]

/-- The batch loop never touches the metadata table, the point set or
the dimension; the id counter only grows and existing label bindings are
preserved. -/
theorem Hnsw.goL_frame (rows : List (List ℝ)) :
    ∀ (labels : List String) (s : Hnsw.IndexState) (aP : List (List ℝ × Nat))
      (aM : List (Nat × Hnsw.ItemMetadata)),
    (Hnsw.add_batch_goL s rows labels aP aM).1.metadata_store = s.metadata_store ∧
    (Hnsw.add_batch_goL s rows labels aP aM).1.points = s.points ∧
    (Hnsw.add_batch_goL s rows labels aP aM).1.dim = s.dim ∧
    s.current_id ≤ (Hnsw.add_batch_goL s rows labels aP aM).1.current_id ∧
    (∀ l id, Hnsw.lookupA s.label_to_id l = some id →
      Hnsw.lookupA (Hnsw.add_batch_goL s rows labels aP aM).1.label_to_id l =
        some id) := by
  induction rows with
  | nil =>
    intro labels s aP aM
    exact ⟨rfl, rfl, rfl, Nat.le_refl _, fun l id h => h⟩
  | cons v rest ih =>
    intro labels s aP aM
    simp only [Hnsw.add_batch_goL]
    by_cases hdim : v.length ≠ s.dim
    · rw [if_pos hdim]
      exact ⟨rfl, rfl, rfl, Nat.le_refl _, fun l id h => h⟩
    · rw [if_neg hdim]
      cases labels with
      | nil => exact ⟨rfl, rfl, rfl, Nat.le_refl _, fun l id h => h⟩
      | cons label ltail =>
        simp only
        by_cases hc : Hnsw.containsA s.label_to_id label
        · rw [if_pos hc]
          exact ⟨rfl, rfl, rfl, Nat.le_refl _, fun l id h => h⟩
        · rw [if_neg hc]
          obtain ⟨h1, h2, h3, h4, h5⟩ := ih ltail
            { s with
              label_to_id := Hnsw.insertA s.label_to_id label s.current_id
              current_id := s.current_id + 1 }
            (aP ++ [(v, s.current_id)]) (aM ++ [(s.current_id, ⟨label, none⟩)])
          refine ⟨h1, h2, h3, Nat.le_trans (Nat.le_succ _) h4, ?_⟩
          intro l id hl
          have hlabel : Hnsw.lookupA s.label_to_id label = none :=
            (Hnsw.containsA_eq_false _ _).mp (Bool.eq_false_iff.mpr hc)
          have hne : l ≠ label := by
            intro he; subst he; rw [hl] at hlabel; exact Option.noConfusion hlabel
          have : Hnsw.lookupA (Hnsw.insertA s.label_to_id label s.current_id) l =
              some id := by
            rw [Hnsw.lookupA_insertA_ne _ _ _ _ hne]; exact hl
          exact h5 l id this

/-- Success/failure characterization of the batch loop: with all rows of
the right dimension and enough labels, the loop succeeds exactly when
the used labels are pairwise distinct and all absent from the label
table, and the only possible failure is `DuplicateLabel`. -/
theorem Hnsw.goL_ok_iff (rows : List (List ℝ)) :
    ∀ (labels : List String) (s : Hnsw.IndexState) (aP : List (List ℝ × Nat))
      (aM : List (Nat × Hnsw.ItemMetadata)),
    (∀ v ∈ rows, v.length = s.dim) → rows.length ≤ labels.length →
    ((∃ r, (Hnsw.add_batch_goL s rows labels aP aM).2 = Except.ok r) ↔
      ((labels.take rows.length).Nodup ∧
        ∀ l ∈ labels.take rows.length, Hnsw.lookupA s.label_to_id l = none)) ∧
    (∀ e, (Hnsw.add_batch_goL s rows labels aP aM).2 = Except.error e →
      e = Hnsw.HErr.DuplicateLabel) := by
  induction rows with
  | nil =>
    intro labels s aP aM _ _
    constructor
    · simp [Hnsw.add_batch_goL]
    · intro e he
      simp [Hnsw.add_batch_goL] at he
  | cons v rest ih =>
    intro labels s aP aM hdims hlen
    have hdim : ¬ v.length ≠ s.dim := by
      simp [hdims v (List.mem_cons_self v rest)]
    cases labels with
    | nil => simp at hlen
    | cons label ltail =>
      simp only [Hnsw.add_batch_goL]
      rw [if_neg hdim]
      by_cases hc : Hnsw.containsA s.label_to_id label
      · rw [if_pos hc]
        have hmem : Hnsw.lookupA s.label_to_id label ≠ none := by
          intro h
          rw [(Hnsw.containsA_eq_false _ _).mpr h] at hc
          exact Bool.noConfusion hc
        constructor
        · constructor
          · rintro ⟨r, hr⟩; exact Except.noConfusion hr
          · rintro ⟨_, hall⟩
            exact absurd (hall label (by simp)) hmem
        · intro e he
          injection he with he2
          exact he2.symm
      · rw [if_neg hc]
        have hlabel : Hnsw.lookupA s.label_to_id label = none :=
          (Hnsw.containsA_eq_false _ _).mp (Bool.eq_false_iff.mpr hc)
        set s1 : Hnsw.IndexState :=
          { s with
            label_to_id := Hnsw.insertA s.label_to_id label s.current_id
            current_id := s.current_id + 1 } with hs1
        have hdims1 : ∀ v2 ∈ rest, v2.length = s1.dim := fun v2 hv2 =>
          hdims v2 (List.mem_cons_of_mem _ hv2)
        have hlen1 : rest.length ≤ ltail.length := Nat.le_of_succ_le_succ hlen
        obtain ⟨hiff, herr⟩ := ih ltail s1 (aP ++ [(v, s.current_id)])
          (aM ++ [(s.current_id, ⟨label, none⟩)]) hdims1 hlen1
        refine ⟨?_, herr⟩
        rw [hiff]
        have hlook : ∀ l2, l2 ∈ ltail.take rest.length →
            (Hnsw.lookupA s1.label_to_id l2 = none ↔
              (l2 ≠ label ∧ Hnsw.lookupA s.label_to_id l2 = none)) := by
          intro l2 _
          constructor
          · intro hl2
            by_cases he : l2 = label
            · subst he
              rw [hs1] at hl2
              simp only [Hnsw.lookupA_insertA_self] at hl2
              exact Option.noConfusion hl2
            · rw [hs1] at hl2
              simp only at hl2
              rw [Hnsw.lookupA_insertA_ne _ _ _ _ he] at hl2
              exact ⟨he, hl2⟩
          · rintro ⟨he, hl2⟩
            rw [hs1]
            simp only
            rw [Hnsw.lookupA_insertA_ne _ _ _ _ he]
            exact hl2
        constructor
        · rintro ⟨hnd, hall⟩
          refine ⟨List.Nodup.cons ?_ hnd, ?_⟩
          · intro hmem
            exact ((hlook label hmem).mp (hall label hmem)).1 rfl
          · intro l2 hl2
            rcases List.mem_cons.mp hl2 with he | he
            · subst he; exact hlabel
            · exact ((hlook l2 he).mp (hall l2 he)).2
        · rintro ⟨hnd, hall⟩
          have hnd2 := List.Nodup.of_cons hnd
          have hnotmem : label ∉ ltail.take rest.length :=
            (List.nodup_cons.mp hnd).1
          refine ⟨hnd2, ?_⟩
          intro l2 hl2
          refine (hlook l2 hl2).mpr ⟨?_, hall l2 (List.mem_cons_of_mem _ hl2)⟩
          intro he; subst he; exact hnotmem hl2

/-- Claim C5 counterexample: a two-row batch on a fresh index whose
labels are both "a" aborts at the second row with `DuplicateLabel`, yet
the first row is NOT left committed in the sense the claim states: after
the failed call `size` is still 0 and no point was inserted into the
graph, so neither `size` nor `search` can observe the first row — only
its label registration (label "a" bound to id 0) and the advanced id
counter survive.  The claim's "the rows committed before the abort
remain committed (observable via size, search, and label lookup)" is
therefore false at this input. -/
theorem C5_counterexample :
    (Hnsw.add_batch (Hnsw.newIndex 1 200) [[0], [1]] (some ["a", "a"]) true).2 =
      Except.error Hnsw.HErr.DuplicateLabel ∧
    Hnsw.size (Hnsw.add_batch (Hnsw.newIndex 1 200) [[0], [1]]
      (some ["a", "a"]) true).1 = 0 ∧
    (Hnsw.add_batch (Hnsw.newIndex 1 200) [[0], [1]]
      (some ["a", "a"]) true).1.points = [] ∧
    Hnsw.lookupA (Hnsw.add_batch (Hnsw.newIndex 1 200) [[0], [1]]
      (some ["a", "a"]) true).1.label_to_id "a" = some 0 ∧
    (0 : Nat) ≠ 1 :=
  ⟨rfl, rfl, rfl, rfl, by decide⟩

/-- Claim C5, amended: a batch insert whose labels (all rows being of
the right dimension, with at least as many labels as rows) contain a
duplicate — either of an existing label or within the batch — fails with
`DuplicateLabel` and the remainder of the batch is abandoned; the rows
processed before the abort leave their labels registered in the label
table and the id counter advanced, but their vectors and metadata are
NOT committed: the metadata table, `size`, and the searchable point set
are unchanged by the failed call.  `insert_batch` is thus not atomic
across the whole call (the label table and counter are mutated), but no
partial entries become visible to `size` or `search`. -/
theorem C5_batch_abort (s : Hnsw.IndexState) (rows : List (List ℝ))
    (ls : List String) (par : Bool)
    (hdims : ∀ v ∈ rows, v.length = s.dim)
    (hlen : rows.length ≤ ls.length)
    (hbad : ¬ ((ls.take rows.length).Nodup ∧
      ∀ l ∈ ls.take rows.length, Hnsw.lookupA s.label_to_id l = none)) :
    (Hnsw.add_batch s rows (some ls) par).2 =
      Except.error Hnsw.HErr.DuplicateLabel ∧
    (Hnsw.add_batch s rows (some ls) par).1.metadata_store = s.metadata_store ∧
    Hnsw.size (Hnsw.add_batch s rows (some ls) par).1 = Hnsw.size s ∧
    (Hnsw.add_batch s rows (some ls) par).1.points = s.points ∧
    s.current_id ≤ (Hnsw.add_batch s rows (some ls) par).1.current_id ∧
    (∀ l id, Hnsw.lookupA s.label_to_id l = some id →
      Hnsw.lookupA (Hnsw.add_batch s rows (some ls) par).1.label_to_id l =
        some id) := by
  have hbridge := Hnsw.add_batch_go_eq_goL ls rows s 0 [] []
  rw [List.drop_zero] at hbridge
  obtain ⟨hiff, herr⟩ := Hnsw.goL_ok_iff rows ls s [] [] hdims hlen
  have hne : ∀ r, (Hnsw.add_batch_goL s rows ls [] []).2 ≠ Except.ok r := by
    intro r hr
    exact hbad (hiff.mp ⟨r, hr⟩)
  obtain ⟨hf1, hf2, hf3, hf4, hf5⟩ := Hnsw.goL_frame rows ls s [] []
  unfold Hnsw.add_batch
  rw [hbridge]
  cases hres : (Hnsw.add_batch_goL s rows ls [] []).2 with
  | ok r => exact absurd hres (hne r)
  | error e =>
    have he := herr e hres
    subst he
    have : Hnsw.add_batch_goL s rows ls [] [] =
        ((Hnsw.add_batch_goL s rows ls [] []).1,
          Except.error Hnsw.HErr.DuplicateLabel) := by
      rw [← hres]
    rw [this]
    exact ⟨rfl, hf1, by simp [Hnsw.size, hf1], hf2, hf4, hf5⟩

/-- Witness for C5: the duplicate-label batch of the counterexample
satisfies the amended theorem's hypotheses, and the theorem applies. -/
theorem C5_batch_abort_witness :
    (∀ v ∈ ([[0], [1]] : List (List ℝ)), v.length = (Hnsw.newIndex 1 200).dim) ∧
    ([[0], [1]] : List (List ℝ)).length ≤ (["a", "a"] : List String).length ∧
    ¬ (((["a", "a"] : List String).take 2).Nodup ∧
      ∀ l ∈ (["a", "a"] : List String).take 2,
        Hnsw.lookupA (Hnsw.newIndex 1 200).label_to_id l = none) ∧
    (Hnsw.add_batch (Hnsw.newIndex 1 200) [[0], [1]] (some ["a", "a"]) false).2 =
      Except.error Hnsw.HErr.DuplicateLabel ∧
    Hnsw.size (Hnsw.add_batch (Hnsw.newIndex 1 200) [[0], [1]]
      (some ["a", "a"]) false).1 = Hnsw.size (Hnsw.newIndex 1 200) :=
  ⟨by simp [Hnsw.newIndex], by decide, by decide,
    (C5_batch_abort (Hnsw.newIndex 1 200) [[0], [1]]
      ["a", "a"] false (by simp [Hnsw.newIndex]) (by decide) (by decide)).1,
    (C5_batch_abort (Hnsw.newIndex 1 200) [[0], [1]]
      ["a", "a"] false (by simp [Hnsw.newIndex]) (by decide) (by decide)).2.2.1⟩

/-- Claim C6: inserting a vector of the correct dimension with an
explicit label that is already present fails with `DuplicateLabel`, and
the failed attempt leaves the whole index state unchanged — in
particular `size`, the label table, the metadata table and the id
counter keep their prior values (the returned state is exactly the input
state). -/
theorem C6_duplicate_label_rejected (s : Hnsw.IndexState) (v : List ℝ)
    (l : String) (md : Option (List (String × String)))
    (hdim : v.length = s.dim)
    (hdup : Hnsw.containsA s.label_to_id l = true) :
    Hnsw.add_item s v (some l) md = (s, Except.error Hnsw.HErr.DuplicateLabel) := by
  simp [Hnsw.add_item, hdim, hdup]

/-- Witness for C6: a one-entry index with label "a" rejects a second
insert under label "a" and is left unchanged. -/
theorem C6_duplicate_label_rejected_witness :
    (([(2:ℝ)] : List ℝ).length =
      (Hnsw.IndexState.mk [([1], 0)] 1 Hnsw.DistanceType.Euclidean
        [(0, ⟨"a", none⟩)] 1 [("a", 0)] 200).dim) ∧
    Hnsw.containsA (Hnsw.IndexState.mk [([(1:ℝ)], 0)] 1 Hnsw.DistanceType.Euclidean
        [(0, ⟨"a", none⟩)] 1 [("a", 0)] 200).label_to_id "a" = true ∧
    Hnsw.add_item (Hnsw.IndexState.mk [([(1:ℝ)], 0)] 1 Hnsw.DistanceType.Euclidean
        [(0, ⟨"a", none⟩)] 1 [("a", 0)] 200) [2] (some "a") none =
      (Hnsw.IndexState.mk [([(1:ℝ)], 0)] 1 Hnsw.DistanceType.Euclidean
        [(0, ⟨"a", none⟩)] 1 [("a", 0)] 200,
        Except.error Hnsw.HErr.DuplicateLabel) :=
  ⟨rfl, rfl, C6_duplicate_label_rejected _ _ _ _ rfl rfl⟩

/-- Claim C7: whenever `fit_transform` returns an error (ragged input,
empty input, graph-build failure, solver error, or zero embedded
points), the stored model state is unchanged: the returned model — and
with it the training-vector and training-embedding fields — is exactly
the input model, so no partial model is created on a first fit and a
previously fitted model is not disturbed. -/
theorem C7_fit_transform_error_frame (m : Embedder.UmapModel)
    (rows : List (List ℝ)) (graphOk : Bool) (embedCount : Option Nat)
    (embedded : List (List ℝ)) (e : Embedder.UErr)
    (herr : (Embedder.fit_transform m rows graphOk embedCount embedded).2 =
      Except.error e) :
    (Embedder.fit_transform m rows graphOk embedCount embedded).1 = m := by
  unfold Embedder.fit_transform at herr ⊢
  split_ifs at herr ⊢ <;> try rfl
  cases embedCount with
  | none => rfl
  | some n =>
    cases n with
    | zero => rfl
    | succ _ => simp at herr

/-- Witness for C7: empty input makes `fit_transform` fail with
`EmptyInput`, and the model (here a freshly configured one) is returned
unchanged. -/
theorem C7_fit_transform_error_frame_witness :
    (Embedder.fit_transform (Embedder.UmapModel.mk 2 15 none 10 8 none none)
        [] true none []).2 = Except.error Embedder.UErr.EmptyInput ∧
    (Embedder.fit_transform (Embedder.UmapModel.mk 2 15 none 10 8 none none)
        [] true none []).1 = Embedder.UmapModel.mk 2 15 none 10 8 none none :=
  ⟨rfl, C7_fit_transform_error_frame _ _ _ _ _ Embedder.UErr.EmptyInput rfl⟩

/-- Claim C9: a `search` call with an explicit `ef` writes that value
into the index's breadth parameter before the graph query runs — the
oracle is invoked at `e`, and the returned state stores `e` as the new
default for subsequent searches — while a `search` without `ef` leaves
the state untouched and queries at the stored value. -/
theorem C9_search_ef_persists (s : Hnsw.IndexState) (q : List ℝ) (k e : Nat)
    (oracle : List ℝ → Nat → Nat → List (Nat × ℝ))
    (hdim : q.length = s.dim) :
    Hnsw.search s q k (some e) oracle =
      ({ s with ef_search := e },
        Except.ok (Hnsw.assembleResults s.metadata_store (oracle q k e))) ∧
    Hnsw.search s q k none oracle =
      (s, Except.ok (Hnsw.assembleResults s.metadata_store (oracle q k s.ef_search))) := by
  constructor <;> simp [Hnsw.search, hdim]

/-- Witness for C9: on a fresh one-dimensional index, searching with
`ef = 5` persists 5, and searching without `ef` keeps the state. -/
theorem C9_search_ef_persists_witness :
    (([(0:ℝ)] : List ℝ).length = (Hnsw.newIndex 1 200).dim) ∧
    Hnsw.search (Hnsw.newIndex 1 200) [0] 1 (some 5) (fun _ _ _ => []) =
      ({ Hnsw.newIndex 1 200 with ef_search := 5 }, Except.ok []) ∧
    Hnsw.search (Hnsw.newIndex 1 200) [0] 1 none (fun _ _ _ => []) =
      (Hnsw.newIndex 1 200, Except.ok []) :=
  ⟨rfl,
    (C9_search_ef_persists (Hnsw.newIndex 1 200) [0] 1 5 (fun _ _ _ => []) rfl).1,
    (C9_search_ef_persists (Hnsw.newIndex 1 200) [0] 1 5 (fun _ _ _ => []) rfl).2⟩

/-- Claim C10: loading a saved index always sets the search-breadth
parameter of the reconstructed index to the constant 200, whatever `ef`
was in effect at save time — the reconstructed state does not depend on
the saved state's `ef_search` — and `ef` is not among the fields written
to the sidecar: the sidecar of a state with any other `ef_search` is
identical. -/
theorem C10_load_resets_ef (s : Hnsw.IndexState) (g : List (List ℝ × Nat))
    (e : Nat) :
    Hnsw.load (Hnsw.save s) g =
      Except.ok
        { points := g
          dim := s.dim
          space := s.space
          metadata_store := s.metadata_store
          current_id := s.current_id
          label_to_id := s.label_to_id
          ef_search := 200 } ∧
    Hnsw.save { s with ef_search := e } = Hnsw.save s := by
  obtain ⟨pts, dim, sp, ms, cid, lid, ef⟩ := s
  exact ⟨by cases sp <;> rfl, rfl⟩

/-- The running-minimum scan of the assignment loop computes the leftmost
minimum: starting from a current minimum `m` and best index `b`, the scan
of `rs` (whose positions start at `j`) keeps `(m, b)` unless some element
of `rs` beats `m` strictly, in which case it returns the leftmost minimum
of `rs` and its position. -/
theorem Clustering.assignPointGo_nil (p : List ℝ) (j b : Nat) (md : Option ℝ) :
    Clustering.assignPointGo p [] j md b = (md, b) := rfl

/-- One step of the assignment scan with a finite running minimum. -/
theorem Clustering.assignPointGo_cons_some (p c : List ℝ) (t : List (List ℝ))
    (j b : Nat) (m : ℝ) :
    Clustering.assignPointGo p (c :: t) j (some m) b =
      if ClusterKit.euclidean_distance p c < m
      then Clustering.assignPointGo p t (j + 1)
        (some (ClusterKit.euclidean_distance p c)) j
      else Clustering.assignPointGo p t (j + 1) (some m) b := rfl

/-- The first step of the assignment scan (infinite running minimum). -/
theorem Clustering.assignPointGo_cons_none (p c : List ℝ) (t : List (List ℝ))
    (j b : Nat) :
    Clustering.assignPointGo p (c :: t) j none b =
      Clustering.assignPointGo p t (j + 1)
        (some (ClusterKit.euclidean_distance p c)) j := rfl

/-- One step of `firstMinIdx` on a list of length at least two. -/
theorem Clustering.firstMinIdx_cons2 (p c c2 : List ℝ) (rest : List (List ℝ)) :
    Clustering.firstMinIdx p (c :: c2 :: rest) =
      if ClusterKit.euclidean_distance p c ≤
          (Clustering.firstMinIdx p (c2 :: rest)).1
      then (ClusterKit.euclidean_distance p c, 0)
      else ((Clustering.firstMinIdx p (c2 :: rest)).1,
        (Clustering.firstMinIdx p (c2 :: rest)).2 + 1) := by
  rw [Clustering.firstMinIdx]

theorem Clustering.assignPointGo_eq (p : List ℝ) (rs : List (List ℝ)) :
    ∀ (j b : Nat) (m : ℝ),
    Clustering.assignPointGo p rs j (some m) b =
      if rs = [] then (some m, b)
      else if (Clustering.firstMinIdx p rs).1 < m
        then (some (Clustering.firstMinIdx p rs).1, j + (Clustering.firstMinIdx p rs).2)
        else (some m, b) := by
  induction rs with
  | nil => intro j b m; simp [Clustering.assignPointGo_nil]
  | cons c t ih =>
    intro j b m
    rw [if_neg (by simp), Clustering.assignPointGo_cons_some]
    cases t with
    | nil =>
      have hfm : Clustering.firstMinIdx p [c] =
          (ClusterKit.euclidean_distance p c, 0) := rfl
      rw [hfm]
      by_cases hdm : ClusterKit.euclidean_distance p c < m
      · rw [if_pos hdm, Clustering.assignPointGo_nil, if_pos hdm]
        simp
      · rw [if_neg hdm, Clustering.assignPointGo_nil, if_neg hdm]
    | cons c2 rest =>
      rw [Clustering.firstMinIdx_cons2]
      set r := Clustering.firstMinIdx p (c2 :: rest) with hr
      by_cases hdm : ClusterKit.euclidean_distance p c < m
      · rw [if_pos hdm, ih (j + 1) j (ClusterKit.euclidean_distance p c),
          if_neg (by simp)]
        by_cases hrd : r.1 < ClusterKit.euclidean_distance p c
        · rw [if_pos hrd, if_neg (not_le.mpr hrd)]
          rw [if_pos (lt_trans hrd hdm)]
          refine Prod.ext rfl ?_
          simp only
          omega
        · rw [if_neg hrd, if_pos (not_lt.mp hrd)]
          rw [if_pos hdm]
          simp
      · rw [if_neg hdm, ih (j + 1) b m, if_neg (by simp)]
        by_cases hrm : r.1 < m
        · have hrd : ¬ ClusterKit.euclidean_distance p c ≤ r.1 := by
            intro hle
            exact hdm (lt_of_le_of_lt hle hrm)
          rw [if_pos hrm, if_neg hrd, if_pos hrm]
          refine Prod.ext rfl ?_
          simp only
          omega
        · rw [if_neg hrm]
          by_cases hdr : ClusterKit.euclidean_distance p c ≤ r.1
          · rw [if_pos hdr, if_neg hdm]
          · rw [if_neg hdr, if_neg hrm]

/-- `firstMinIdx` indeed returns the leftmost minimum: its index is in
range, its value is the distance at that index, no index has a smaller
distance, and every strictly earlier index has a strictly larger
distance. -/
theorem Clustering.firstMinIdx_spec (p : List ℝ) (cs : List (List ℝ))
    (hne : cs ≠ []) :
    (Clustering.firstMinIdx p cs).2 < cs.length ∧
    (Clustering.firstMinIdx p cs).1 =
      ClusterKit.euclidean_distance p (cs.getD (Clustering.firstMinIdx p cs).2 []) ∧
    (∀ j2, j2 < cs.length →
      (Clustering.firstMinIdx p cs).1 ≤
        ClusterKit.euclidean_distance p (cs.getD j2 [])) ∧
    (∀ j2, j2 < (Clustering.firstMinIdx p cs).2 →
      (Clustering.firstMinIdx p cs).1 <
        ClusterKit.euclidean_distance p (cs.getD j2 [])) := by
  induction cs with
  | nil => exact absurd rfl hne
  | cons c t ih =>
    cases t with
    | nil =>
      have hfm : Clustering.firstMinIdx p [c] =
          (ClusterKit.euclidean_distance p c, 0) := rfl
      refine ⟨by simp [hfm], by simp [hfm], ?_, ?_⟩
      · intro j2 hj2
        simp only [List.length_cons, List.length_nil] at hj2
        have hz : j2 = 0 := by omega
        subst hz
        simp [hfm]
      · intro j2 hj2
        rw [hfm] at hj2
        exact absurd hj2 (by omega)
    | cons c2 rest =>
      obtain ⟨ih1, ih2, ih3, ih4⟩ := ih (by simp)
      have hfm := Clustering.firstMinIdx_cons2 p c c2 rest
      by_cases hle : ClusterKit.euclidean_distance p c ≤
          (Clustering.firstMinIdx p (c2 :: rest)).1
      · rw [hfm, if_pos hle]
        refine ⟨by simp, by simp, ?_, ?_⟩
        · intro j2 hj2
          cases j2 with
          | zero => simp
          | succ j3 =>
            simp only [List.getD_cons_succ]
            exact le_trans hle (ih3 j3 (by simpa using hj2))
        · intro j2 hj2
          simp at hj2
      · rw [hfm, if_neg hle]
        refine ⟨by simpa using Nat.succ_lt_succ ih1, by simpa using ih2, ?_, ?_⟩
        · intro j2 hj2
          cases j2 with
          | zero =>
            simp only [List.getD_cons_zero]
            exact le_of_lt (not_le.mp hle)
          | succ j3 =>
            simp only [List.getD_cons_succ]
            exact ih3 j3 (by simpa using hj2)
        · intro j2 hj2
          cases j2 with
          | zero =>
            simp only [List.getD_cons_zero]
            exact not_le.mp hle
          | succ j3 =>
            simp only [List.getD_cons_succ]
            exact ih4 j3 (by simpa using hj2)

/-- The assignment loop returns the index of the leftmost minimum. -/
theorem Clustering.assignPoint_eq_firstMinIdx (cs : List (List ℝ)) (p : List ℝ)
    (hne : cs ≠ []) :
    Clustering.assignPoint cs p = (Clustering.firstMinIdx p cs).2 := by
  cases cs with
  | nil => exact absurd rfl hne
  | cons c t =>
    show (Clustering.assignPointGo p (c :: t) 0 none 0).2 = _
    rw [Clustering.assignPointGo_cons_none]
    cases t with
    | nil =>
      rw [Clustering.assignPointGo_nil]
      have hfm : Clustering.firstMinIdx p [c] =
          (ClusterKit.euclidean_distance p c, 0) := rfl
      rw [hfm]
    | cons c2 rest =>
      rw [Clustering.assignPointGo_eq p (c2 :: rest) 1 0
        (ClusterKit.euclidean_distance p c), if_neg (by simp)]
      rw [Clustering.firstMinIdx_cons2]
      by_cases hrd : (Clustering.firstMinIdx p (c2 :: rest)).1 <
          ClusterKit.euclidean_distance p c
      · rw [if_pos hrd, if_neg (not_le.mpr hrd)]
        simp only
        omega
      · rw [if_neg hrd, if_pos (not_lt.mp hrd)]

theorem ClusterKit.vecAdd_assoc (a b c : List ℝ) :
    ClusterKit.vecAdd (ClusterKit.vecAdd a b) c =
      ClusterKit.vecAdd a (ClusterKit.vecAdd b c) := by
  induction a generalizing b c with
  | nil => simp [ClusterKit.vecAdd]
  | cons x xs ih =>
    cases b with
    | nil => simp [ClusterKit.vecAdd]
    | cons y ys =>
      cases c with
      | nil => simp [ClusterKit.vecAdd]
      | cons z zs =>
        show (x + y + z) :: ClusterKit.vecAdd (ClusterKit.vecAdd xs ys) zs = _
        rw [ih, add_assoc]
        rfl

theorem ClusterKit.zero_vecAdd (nf : Nat) (v : List ℝ) (h : v.length = nf) :
    ClusterKit.vecAdd (List.replicate nf 0) v = v := by
  induction nf generalizing v with
  | zero =>
    cases v with
    | nil => rfl
    | cons x xs => simp at h
  | succ n ih =>
    cases v with
    | nil => simp at h
    | cons x xs =>
      have hx : xs.length = n := by simpa using h
      rw [List.replicate_succ]
      show (0 + x) :: ClusterKit.vecAdd (List.replicate n 0) xs = x :: xs
      rw [zero_add, ih xs hx]

theorem ClusterKit.vecAdd_zero (nf : Nat) (v : List ℝ) (h : v.length = nf) :
    ClusterKit.vecAdd v (List.replicate nf 0) = v := by
  induction nf generalizing v with
  | zero =>
    cases v with
    | nil => rfl
    | cons x xs => simp at h
  | succ n ih =>
    cases v with
    | nil => simp at h
    | cons x xs =>
      have hx : xs.length = n := by simpa using h
      rw [List.replicate_succ]
      show (x + 0) :: ClusterKit.vecAdd xs (List.replicate n 0) = x :: xs
      rw [add_zero, ih xs hx]

theorem ClusterKit.vecSum_length (nf : Nat) (l : List (List ℝ))
    (h : ∀ x ∈ l, x.length = nf) : (ClusterKit.vecSum nf l).length = nf := by
  induction l with
  | nil => simp [ClusterKit.vecSum]
  | cons x xs ih =>
    have hxs : (ClusterKit.vecSum nf xs).length = nf :=
      ih fun y hy => h y (List.mem_cons_of_mem _ hy)
    show (ClusterKit.vecAdd x (ClusterKit.vecSum nf xs)).length = nf
    rw [ClusterKit.vecAdd, List.length_zipWith, hxs, h x (List.mem_cons_self _ _)]
    simp

/-- The sum/count accumulation of the centroid update, evaluated: it adds
to the running accumulator the componentwise sum and the count of the
pairs labelled `j`. -/
theorem Clustering.update_fold (nf j : Nat) (l : List (List ℝ × Nat)) :
    ∀ (b : List ℝ), b.length = nf → (∀ q ∈ l, q.1.length = nf) → ∀ (c : Nat),
    l.foldl (fun acc q =>
        if q.2 = j then (ClusterKit.vecAdd acc.1 q.1, acc.2 + 1) else acc) (b, c) =
      (ClusterKit.vecAdd b
        (ClusterKit.vecSum nf ((l.filter fun q => q.2 == j).map Prod.fst)),
       c + ((l.filter fun q => q.2 == j).map Prod.fst).length) := by
  induction l with
  | nil =>
    intro b hb _ c
    simp only [List.foldl_nil, List.filter_nil, List.map_nil, List.length_nil,
      Nat.add_zero]
    rw [show ClusterKit.vecSum nf [] = List.replicate nf 0 from rfl,
      ClusterKit.vecAdd_zero nf b hb]
  | cons q t ih =>
    intro b hb hlen c
    have hq1 : q.1.length = nf := hlen q (List.mem_cons_self _ _)
    have hlent : ∀ q2 ∈ t, q2.1.length = nf := fun q2 hq2 =>
      hlen q2 (List.mem_cons_of_mem _ hq2)
    by_cases hqj : q.2 = j
    · have hb2 : (ClusterKit.vecAdd b q.1).length = nf := by
        rw [ClusterKit.vecAdd, List.length_zipWith, hb, hq1]
        simp
      rw [List.foldl_cons, if_pos hqj, ih (ClusterKit.vecAdd b q.1) hb2 hlent (c + 1)]
      have hfil : (q :: t).filter (fun q2 => q2.2 == j) =
          q :: t.filter (fun q2 => q2.2 == j) := by
        rw [List.filter_cons, if_pos (by simpa using hqj)]
      rw [hfil]
      refine Prod.ext ?_ ?_
      · show ClusterKit.vecAdd (ClusterKit.vecAdd b q.1) _ =
          ClusterKit.vecAdd b (ClusterKit.vecAdd q.1 _)
        rw [ClusterKit.vecAdd_assoc]
        rfl
      · simp only [List.map_cons, List.length_cons]
        omega
    · rw [List.foldl_cons, if_neg hqj, ih b hb hlent c]
      have hfil : (q :: t).filter (fun q2 => q2.2 == j) =
          t.filter (fun q2 => q2.2 == j) := by
        rw [List.filter_cons, if_neg (by simpa using hqj)]
      rw [hfil]

/-- The centroid update of the source coincides with the spec-side
cluster mean on rectangular data: `sum / count` over the points labelled
`j`, the old centroid when the cluster is empty. -/
theorem Clustering.updateCentroid_eq (data : List (List ℝ)) (labels : List Nat)
    (nf j : Nat) (old : List ℝ) (hrect : ∀ r ∈ data, r.length = nf) :
    Clustering.updateCentroid data labels nf j old =
      Clustering.clusterMean data labels nf j old := by
  have hq : ∀ q ∈ data.zip labels, q.1.length = nf := fun q hq =>
    hrect q.1 (List.of_mem_zip hq).1
  unfold Clustering.updateCentroid Clustering.clusterMean
  rw [Clustering.update_fold nf j (data.zip labels) (List.replicate nf 0)
    (by simp) hq 0]
  have hlen : ∀ x ∈ ((data.zip labels).filter fun q => q.2 == j).map Prod.fst,
      x.length = nf := by
    intro x hx
    obtain ⟨q2, hq2, rfl⟩ := List.mem_map.mp hx
    exact hq q2 (List.mem_filter.mp hq2).1
  simp only
  rw [ClusterKit.zero_vecAdd nf _ (ClusterKit.vecSum_length nf _ hlen)]
  simp only [Nat.zero_add]
  by_cases h0 : 0 <
      (((data.zip labels).filter fun q => q.2 == j).map Prod.fst).length
  · rw [if_pos h0, if_neg (by omega)]
  · rw [if_neg h0, if_pos (by omega)]

/-- The `changed` flag is clear exactly when the new assignment equals
the previous one (for assignments of equal length). -/
theorem Clustering.anyChanged_eq_false_iff (old new : List Nat)
    (h : old.length = new.length) :
    (Clustering.anyChanged old new = false) ↔ new = old := by
  induction old generalizing new with
  | nil =>
    cases new with
    | nil => simp [Clustering.anyChanged]
    | cons y ys => simp at h
  | cons x xs ih =>
    cases new with
    | nil => simp at h
    | cons y ys =>
      have h2 : xs.length = ys.length := by simpa using h
      constructor
      · intro hac
        simp only [Clustering.anyChanged, List.zip_cons_cons, List.any_cons,
          Bool.or_eq_false_iff] at hac
        obtain ⟨h1, h2a⟩ := hac
        have hxy : x = y := by simpa using h1
        have hys : ys = xs := (ih ys h2).mp h2a
        rw [hxy, hys]
      · intro he
        injection he with h1 h2b
        subst h1
        subst h2b
        simp only [Clustering.anyChanged, List.zip_cons_cons, List.any_cons,
          Bool.or_eq_false_iff]
        exact ⟨by simp, (ih ys h2).mpr rfl⟩

/-- Each assignment is a nearest centroid with the first-encountered
minimum winning ties. -/
theorem Clustering.assignPoint_spec (cs : List (List ℝ)) (p : List ℝ)
    (hne : cs ≠ []) :
    Clustering.isNearestFirst cs p (Clustering.assignPoint cs p) := by
  obtain ⟨h1, h2, h3, h4⟩ := Clustering.firstMinIdx_spec p cs hne
  rw [Clustering.isNearestFirst, Clustering.assignPoint_eq_firstMinIdx cs p hne]
  refine ⟨h1, ?_, ?_⟩
  · intro j2 hj2
    rw [← h2]
    exact h3 j2 hj2
  · intro j2 hj2
    rw [← h2]
    exact h4 j2 hj2

/-- Claim C1: for nonempty rectangular data, `1 ≤ k = |centroids|` and at
least one remaining iteration, one pass of the K-means loop (i) assigns
each point to its nearest centroid under Euclidean distance, ties broken
by the lowest centroid index (first encountered minimum wins), and (ii)
stops early exactly when no point's assignment changed relative to the
previous iteration AND this is not the first iteration (`0 < iter`) — so
with `max_iterations ≥ 1` the loop, which starts at `iter = 0`, always
performs at least one full assignment pass — and otherwise recomputes
each centroid as the arithmetic mean of its assigned points, leaving a
centroid unchanged when no point is assigned to it, and continues.  (On
the stopping pass the source breaks between assignment and update; when
nothing changed the update would reproduce the same centroids, so the
claim's reading is unaffected.) -/
theorem C1_kmeans_iteration (data : List (List ℝ)) (k nf fuel iter : Nat)
    (labels : List Nat) (cs : List (List ℝ))
    (hne : data ≠ []) (hrect : ∀ r ∈ data, r.length = nf)
    (hcs : cs.length = k) (hk : 0 < k) (hlab : labels.length = data.length) :
    (∀ p ∈ data, Clustering.isNearestFirst cs p (Clustering.assignPoint cs p)) ∧
    Clustering.kmeansGo data k nf (fuel + 1) iter labels cs =
      (if data.map (Clustering.assignPoint cs) = labels ∧ 0 < iter
       then (data.map (Clustering.assignPoint cs), cs)
       else Clustering.kmeansGo data k nf fuel (iter + 1)
         (data.map (Clustering.assignPoint cs))
         ((List.range k).map fun j =>
           Clustering.clusterMean data (data.map (Clustering.assignPoint cs)) nf j
             (cs.getD j []))) := by
  have hcsne : cs ≠ [] := by
    intro h
    rw [h] at hcs
    simp at hcs
    omega
  constructor
  · intro p _
    exact Clustering.assignPoint_spec cs p hcsne
  · have hlen2 : labels.length = (data.map (Clustering.assignPoint cs)).length := by
      rw [List.length_map]
      exact hlab
    have hcond := Clustering.anyChanged_eq_false_iff labels
      (data.map (Clustering.assignPoint cs)) hlen2
    have hupd : Clustering.updateCentroids data k nf
        (data.map (Clustering.assignPoint cs)) cs =
        (List.range k).map fun j =>
          Clustering.clusterMean data (data.map (Clustering.assignPoint cs)) nf j
            (cs.getD j []) := by
      unfold Clustering.updateCentroids
      exact List.map_congr_left fun j _ =>
        Clustering.updateCentroid_eq data _ nf j _ hrect
    simp only [Clustering.kmeansGo]
    rw [hupd]
    exact if_congr (and_congr hcond Iff.rfl) rfl rfl

/-- Witness for C1: a two-point one-dimensional dataset with one
centroid, evaluated on the first iteration. -/
theorem C1_kmeans_iteration_witness :
    (([[0], [1]] : List (List ℝ)) ≠ []) ∧
    (∀ r ∈ ([[0], [1]] : List (List ℝ)), r.length = 1) ∧
    (([[(0:ℝ)]] : List (List ℝ)).length = 1) ∧ (0 < 1) ∧
    (([0, 0] : List Nat).length = ([[0], [1]] : List (List ℝ)).length) ∧
    Clustering.kmeansGo [[0], [1]] 1 1 1 0 [0, 0] [[0]] =
      (if ([[0], [1]] : List (List ℝ)).map (Clustering.assignPoint [[0]]) = [0, 0] ∧
          0 < 0
       then (([[0], [1]] : List (List ℝ)).map (Clustering.assignPoint [[0]]), [[0]])
       else Clustering.kmeansGo [[0], [1]] 1 1 0 1
         (([[0], [1]] : List (List ℝ)).map (Clustering.assignPoint [[0]]))
         ((List.range 1).map fun j =>
           Clustering.clusterMean [[0], [1]]
             (([[0], [1]] : List (List ℝ)).map (Clustering.assignPoint [[0]])) 1 j
             (([[(0:ℝ)]] : List (List ℝ)).getD j []))) :=
  ⟨by simp, by simp, rfl, by decide, rfl,
    (C1_kmeans_iteration [[0], [1]] 1 1 0 0 [0, 0] [[0]]
      (by simp) (by simp) rfl (by decide) rfl).2⟩

theorem ClusterKit.smulVec_length (w : ℝ) (v : List ℝ) :
    (ClusterKit.smulVec w v).length = v.length := by
  simp [ClusterKit.smulVec]

/-- `avg[i] += val * w` over a whole row is vector addition of the
`w`-scaled row, when the lengths agree. -/
theorem Embedder.addScaled_eq (w : ℝ) (acc r : List ℝ)
    (h : acc.length = r.length) :
    Embedder.addScaled w acc r = ClusterKit.vecAdd acc (ClusterKit.smulVec w r) := by
  induction acc generalizing r with
  | nil =>
    cases r with
    | nil => rfl
    | cons y ys => simp at h
  | cons x xs ih =>
    cases r with
    | nil => simp at h
    | cons y ys =>
      have h2 : xs.length = ys.length := by simpa using h
      show (x + y * w) :: Embedder.addScaled w xs ys = _
      rw [ih ys h2]
      show _ = (x + w * y) :: ClusterKit.vecAdd xs (ClusterKit.smulVec w ys)
      rw [mul_comm]

/-- Every index in the sorted distance list is a valid training index. -/
theorem Embedder.enumFrom_fst_lt {α : Type} (l : List α) :
    ∀ (n : Nat) (q : Nat × α), q ∈ l.enumFrom n → q.1 < n + l.length := by
  induction l with
  | nil => intro n q h; simp [List.enumFrom] at h
  | cons x t ih =>
    intro n q h
    rw [show (x :: t).enumFrom n = (n, x) :: t.enumFrom (n + 1) from rfl] at h
    rcases List.mem_cons.mp h with h2 | h2
    · subst h2; simp
    · have := ih (n + 1) q h2
      simp only [List.length_cons]
      omega

theorem Embedder.sortDist_idx_lt (row : List ℝ) (td : List (List ℝ)) :
    ∀ q ∈ Embedder.sortDist row td, q.2 < td.length := by
  intro q hq
  have hmem : q ∈ td.enum.map fun q2 =>
      (ClusterKit.euclidean_distance row q2.2, q2.1) :=
    (List.perm_insertionSort _ _).mem_iff.mp hq
  obtain ⟨q2, hq2, rfl⟩ := List.mem_map.mp hmem
  have := Embedder.enumFrom_fst_lt td 0 q2 hq2
  simpa using this

/-- Every recorded distance is a Euclidean distance, hence nonnegative. -/
theorem Embedder.sortDist_fst_nonneg (row : List ℝ) (td : List (List ℝ)) :
    ∀ q ∈ Embedder.sortDist row td, 0 ≤ q.1 := by
  intro q hq
  have hmem : q ∈ td.enum.map fun q2 =>
      (ClusterKit.euclidean_distance row q2.2, q2.1) :=
    (List.perm_insertionSort _ _).mem_iff.mp hq
  obtain ⟨q2, _, rfl⟩ := List.mem_map.mp hmem
  exact Real.sqrt_nonneg _

theorem Embedder.specWeight_pos (d : ℝ) (h : 0 ≤ d) : 0 < Embedder.specWeight d := by
  rw [Embedder.specWeight]
  positivity

/-- The accumulation loop of `transform`, evaluated: it produces the sum
of the weight-scaled embeddings together with the total weight. -/
theorem Embedder.transform_fold (te : List (List ℝ)) (ncomp : Nat)
    (sel : List (ℝ × Nat)) :
    ∀ (b : List ℝ) (c : ℝ), b.length = ncomp →
    (∀ q ∈ sel, (te.getD q.2 []).length = ncomp) →
    sel.foldl (fun acc q =>
        (Embedder.addScaled (1 / (q.1 + 1 / 1000)) acc.1 (te.getD q.2 []),
          acc.2 + 1 / (q.1 + 1 / 1000))) (b, c) =
      (ClusterKit.vecAdd b (ClusterKit.vecSum ncomp
          (sel.map fun q =>
            ClusterKit.smulVec (Embedder.specWeight q.1) (te.getD q.2 []))),
        c + (sel.map fun q => Embedder.specWeight q.1).sum) := by
  induction sel with
  | nil =>
    intro b c hb _
    simp only [List.foldl_nil, List.map_nil, List.sum_nil, add_zero]
    rw [show ClusterKit.vecSum ncomp [] = List.replicate ncomp 0 from rfl,
      ClusterKit.vecAdd_zero ncomp b hb]
  | cons q t ih =>
    intro b c hb hq
    have hqr : (te.getD q.2 []).length = ncomp := hq q (List.mem_cons_self _ _)
    have hqt : ∀ q2 ∈ t, (te.getD q2.2 []).length = ncomp := fun q2 h2 =>
      hq q2 (List.mem_cons_of_mem _ h2)
    rw [List.foldl_cons]
    simp only
    rw [Embedder.addScaled_eq _ _ _ (by rw [hb, hqr])]
    have hb2 : (ClusterKit.vecAdd b
        (ClusterKit.smulVec (1 / (q.1 + 1 / 1000)) (te.getD q.2 []))).length = ncomp := by
      rw [ClusterKit.vecAdd, List.length_zipWith, hb,
        ClusterKit.smulVec_length, hqr]
      simp
    rw [ih _ _ hb2 hqt]
    refine Prod.ext ?_ ?_
    · show ClusterKit.vecAdd (ClusterKit.vecAdd b _) _ = ClusterKit.vecAdd b _
      rw [ClusterKit.vecAdd_assoc]
      rfl
    · show c + 1 / (q.1 + 1 / 1000) + _ = c + _
      rw [List.map_cons, List.sum_cons, Embedder.specWeight, add_assoc]

theorem ClusterKit.vecAdd_map_div (W : ℝ) (a b : List ℝ) :
    (ClusterKit.vecAdd a b).map (fun x => x / W) =
      ClusterKit.vecAdd (a.map fun x => x / W) (b.map fun x => x / W) := by
  induction a generalizing b with
  | nil => simp [ClusterKit.vecAdd]
  | cons x xs ih =>
    cases b with
    | nil => simp [ClusterKit.vecAdd]
    | cons y ys =>
      show ((x + y) / W) :: _ = ((x / W + y / W) :: _)
      rw [add_div]
      exact congrArg (List.cons _) (ih ys)

theorem ClusterKit.vecSum_map_div (W : ℝ) (ncomp : Nat) (l : List (List ℝ)) :
    (ClusterKit.vecSum ncomp l).map (fun x => x / W) =
      ClusterKit.vecSum ncomp (l.map fun v => v.map fun x => x / W) := by
  induction l with
  | nil =>
    show (List.replicate ncomp 0).map (fun x => x / W) = List.replicate ncomp 0
    simp [List.map_replicate]
  | cons v vs ih =>
    show (ClusterKit.vecAdd v (ClusterKit.vecSum ncomp vs)).map _ = _
    rw [ClusterKit.vecAdd_map_div, ih]
    rfl

theorem ClusterKit.smulVec_map_div (W w : ℝ) (v : List ℝ) :
    (ClusterKit.smulVec w v).map (fun x => x / W) =
      ClusterKit.smulVec (w / W) v := by
  induction v with
  | nil => rfl
  | cons x xs ih =>
    show (w * x / W) :: _ = ((w / W) * x) :: _
    rw [mul_div_right_comm]
    exact congrArg (List.cons _) ih

theorem ClusterKit.sum_map_div (W : ℝ) (l : List ℝ) :
    (l.map fun x => x / W).sum = l.sum / W := by
  induction l with
  | nil => simp
  | cons x xs ih => rw [List.map_cons, List.sum_cons, List.sum_cons, ih, add_div]

/-- The per-row transform of the source equals the spec-side normalized
weighted average of the selected neighbors' stored embeddings. -/
theorem Embedder.transformRow_eq (td te : List (List ℝ)) (nn ncomp : Nat)
    (row : List ℝ)
    (hte : ∀ q ∈ (Embedder.sortDist row td).take (Nat.min nn td.length),
      (te.getD q.2 []).length = ncomp) :
    Embedder.transformRow td te nn ncomp row =
      Embedder.specTransformRow td te nn ncomp row := by
  simp only [Embedder.transformRow, Embedder.specTransformRow]
  rw [Embedder.transform_fold te ncomp _ (List.replicate ncomp 0) 0
    (by simp) hte]
  have hlensm : ∀ x ∈ ((Embedder.sortDist row td).take (Nat.min nn td.length)).map
      (fun q => ClusterKit.smulVec (Embedder.specWeight q.1) (te.getD q.2 [])),
      x.length = ncomp := by
    intro x hx
    obtain ⟨q2, hq2, rfl⟩ := List.mem_map.mp hx
    rw [ClusterKit.smulVec_length]
    exact hte q2 hq2
  simp only
  rw [ClusterKit.zero_vecAdd ncomp _ (ClusterKit.vecSum_length ncomp _ hlensm),
    zero_add, ClusterKit.vecSum_map_div, List.map_map]
  congr 1
  refine List.map_congr_left ?_
  intro q _
  exact ClusterKit.smulVec_map_div _ _ _

theorem Embedder.getD_mem {α : Type} (l : List α) (n : Nat) (d : α)
    (h : n < l.length) : l.getD n d ∈ l := by
  rw [List.getD_eq_getElem?_getD, List.getElem?_eq_getElem h]
  exact List.getElem_mem h

/-- Claim C2: for a fitted (or loaded) model with a nonempty training set
and `n_neighbors ≥ 1`, `transform` maps each input row to the spec-side
formula: the distance to every stored training vector is computed
(`sortDist` lists all of them, a permutation of the full distance/index
list), the `min(n_neighbors, n)` nearest are taken from the ascending
sort, and the output is the inverse-distance-weighted average
`weight(i) = 1 / (distance(i) + 0.001)` of their stored embeddings with
the weights normalized to sum to 1. -/
theorem C2_transform_formula (m : Embedder.UmapModel) (td te : List (List ℝ))
    (rows : List (List ℝ))
    (h1 : m.training_data = some td) (h2 : m.training_embeddings = some te)
    (hne : td ≠ []) (hnn : 1 ≤ m.n_neighbors)
    (hlen : te.length = td.length)
    (hrows : ∀ e ∈ te, e.length = m.n_components) :
    Embedder.transform m rows = Except.ok (rows.map fun row =>
      Embedder.specTransformRow td te m.n_neighbors m.n_components row) ∧
    ∀ row : List ℝ,
      List.Sorted (fun a b => a.1 ≤ b.1) (Embedder.sortDist row td) ∧
      (Embedder.sortDist row td).Perm
        (td.enum.map fun q => (ClusterKit.euclidean_distance row q.2, q.1)) ∧
      (((Embedder.sortDist row td).take (Nat.min m.n_neighbors td.length)).map
          fun q => Embedder.specWeight q.1 /
            ((((Embedder.sortDist row td).take
              (Nat.min m.n_neighbors td.length)).map
                fun q2 => Embedder.specWeight q2.1).sum)).sum = 1 := by
  have hte : ∀ (row : List ℝ) (q : ℝ × Nat),
      q ∈ (Embedder.sortDist row td).take (Nat.min m.n_neighbors td.length) →
      (te.getD q.2 []).length = m.n_components := by
    intro row q hq
    have hlt : q.2 < te.length := by
      rw [hlen]
      exact Embedder.sortDist_idx_lt row td q (List.mem_of_mem_take hq)
    exact hrows _ (Embedder.getD_mem te q.2 [] hlt)
  refine ⟨?_, ?_⟩
  · simp only [Embedder.transform, h1, h2]
    refine congrArg Except.ok (List.map_congr_left ?_)
    intro row _
    exact Embedder.transformRow_eq td te m.n_neighbors m.n_components row
      (hte row)
  · intro row
    refine ⟨List.sorted_insertionSort _ _, List.perm_insertionSort _ _, ?_⟩
    have hpos : ∀ x ∈ ((Embedder.sortDist row td).take
        (Nat.min m.n_neighbors td.length)).map
          fun q2 => Embedder.specWeight q2.1, 0 < x := by
      intro x hx
      obtain ⟨q2, hq2, rfl⟩ := List.mem_map.mp hx
      exact Embedder.specWeight_pos _
        (Embedder.sortDist_fst_nonneg row td q2 (List.mem_of_mem_take hq2))
    have hsd : (Embedder.sortDist row td).length = td.length := by
      rw [Embedder.sortDist, List.length_insertionSort, List.length_map,
        List.enum_length]
    have htd : 0 < td.length := List.length_pos.mpr hne
    have hselne : (Embedder.sortDist row td).take
        (Nat.min m.n_neighbors td.length) ≠ [] := by
      refine List.length_pos.mp ?_
      rw [List.length_take, hsd]
      exact Nat.lt_min.mpr ⟨Nat.lt_min.mpr ⟨hnn, htd⟩, htd⟩
    have hWpos : 0 < (((Embedder.sortDist row td).take
        (Nat.min m.n_neighbors td.length)).map
          fun q2 => Embedder.specWeight q2.1).sum := by
      refine List.sum_pos _ hpos ?_
      intro hnil
      exact hselne (List.map_eq_nil_iff.mp hnil)
    have hmm : ((Embedder.sortDist row td).take
        (Nat.min m.n_neighbors td.length)).map
          (fun q => Embedder.specWeight q.1 /
            ((((Embedder.sortDist row td).take
              (Nat.min m.n_neighbors td.length)).map
                fun q2 => Embedder.specWeight q2.1).sum)) =
        (((Embedder.sortDist row td).take
          (Nat.min m.n_neighbors td.length)).map
            fun q2 => Embedder.specWeight q2.1).map
          (fun x => x / ((((Embedder.sortDist row td).take
            (Nat.min m.n_neighbors td.length)).map
              fun q2 => Embedder.specWeight q2.1).sum)) := by
      rw [List.map_map]
      rfl
    rw [hmm, ClusterKit.sum_map_div]
    exact div_self (ne_of_gt hWpos)

/-- Witness for C2: a one-point training set in one dimension with
embedding `[1]`, transformed at its own training row. -/
theorem C2_transform_formula_witness :
    ((Embedder.UmapModel.mk 1 1 none 10 8 (some [[0]]) (some [[1]])).training_data
      = some [[0]]) ∧
    (([[(0:ℝ)]] : List (List ℝ)) ≠ []) ∧
    (([[(1:ℝ)]] : List (List ℝ)).length = ([[(0:ℝ)]] : List (List ℝ)).length) ∧
    (∀ e ∈ ([[(1:ℝ)]] : List (List ℝ)), e.length =
      (Embedder.UmapModel.mk 1 1 none 10 8 (some [[0]]) (some [[1]])).n_components) ∧
    Embedder.transform (Embedder.UmapModel.mk 1 1 none 10 8 (some [[0]]) (some [[1]]))
        [[0]] =
      Except.ok ([[(0:ℝ)]].map fun row =>
        Embedder.specTransformRow [[0]] [[1]] 1 1 row) :=
  ⟨rfl, by simp, rfl, by simp,
    (C2_transform_formula (Embedder.UmapModel.mk 1 1 none 10 8 (some [[0]]) (some [[1]]))
      [[0]] [[1]] [[0]] rfl rfl (by simp) (by decide) rfl (by simp)).1⟩

/-- The running-minimum fold of `kmeans_plusplus` distances: its result
is the start value or one of the scanned distances, and it is a lower
bound of all of them. -/
theorem Clustering.minDist_fold_spec (p : List ℝ) (rest : List (List ℝ)) :
    ∀ m : ℝ,
    ((rest.foldl (fun m2 c2 =>
        if ClusterKit.euclidean_distance p c2 < m2
        then ClusterKit.euclidean_distance p c2 else m2) m) = m ∨
      ∃ c ∈ rest, (rest.foldl (fun m2 c2 =>
        if ClusterKit.euclidean_distance p c2 < m2
        then ClusterKit.euclidean_distance p c2 else m2) m) =
          ClusterKit.euclidean_distance p c) ∧
    (rest.foldl (fun m2 c2 =>
        if ClusterKit.euclidean_distance p c2 < m2
        then ClusterKit.euclidean_distance p c2 else m2) m) ≤ m ∧
    (∀ c ∈ rest, (rest.foldl (fun m2 c2 =>
        if ClusterKit.euclidean_distance p c2 < m2
        then ClusterKit.euclidean_distance p c2 else m2) m) ≤
          ClusterKit.euclidean_distance p c) := by
  induction rest with
  | nil =>
    intro m
    refine ⟨Or.inl rfl, le_refl _, ?_⟩
    intro c hc
    simp at hc
  | cons c2 t ih =>
    intro m
    rw [List.foldl_cons]
    by_cases hd : ClusterKit.euclidean_distance p c2 < m
    · rw [if_pos hd]
      obtain ⟨ih1, ih2, ih3⟩ := ih (ClusterKit.euclidean_distance p c2)
      refine ⟨?_, ?_, ?_⟩
      · rcases ih1 with h | ⟨c, hc, hc2⟩
        · exact Or.inr ⟨c2, List.mem_cons_self _ _, h⟩
        · exact Or.inr ⟨c, List.mem_cons_of_mem _ hc, hc2⟩
      · exact le_trans ih2 (le_of_lt hd)
      · intro c hc
        rcases List.mem_cons.mp hc with h | h
        · subst h; exact ih2
        · exact ih3 c h
    · rw [if_neg hd]
      obtain ⟨ih1, ih2, ih3⟩ := ih m
      refine ⟨?_, ih2, ?_⟩
      · rcases ih1 with h | ⟨c, hc, hc2⟩
        · exact Or.inl h
        · exact Or.inr ⟨c, List.mem_cons_of_mem _ hc, hc2⟩
      · intro c hc
        rcases List.mem_cons.mp hc with h | h
        · subst h; exact le_trans ih2 (not_lt.mp hd)
        · exact ih3 c h

/-- On a nonempty centroid list, `minDistToCent` is the distance to some
chosen centroid and a lower bound of the distances to all of them. -/
theorem Clustering.minDistToCent_spec (p : List ℝ) (cent : List (List ℝ))
    (h : cent ≠ []) :
    (∃ c ∈ cent, Clustering.minDistToCent p cent =
      ClusterKit.euclidean_distance p c) ∧
    ∀ c ∈ cent, Clustering.minDistToCent p cent ≤
      ClusterKit.euclidean_distance p c := by
  cases cent with
  | nil => exact absurd rfl h
  | cons c rest =>
    obtain ⟨h1, h2, h3⟩ :=
      Clustering.minDist_fold_spec p rest (ClusterKit.euclidean_distance p c)
    refine ⟨?_, ?_⟩
    · rcases h1 with he | ⟨c2, hc2, hc3⟩
      · exact ⟨c, List.mem_cons_self _ _, he⟩
      · exact ⟨c2, List.mem_cons_of_mem _ hc2, hc3⟩
    · intro c2 hc2
      rcases List.mem_cons.mp hc2 with h4 | h4
      · subst h4; exact h2
      · exact h3 c2 h4

theorem Clustering.minDistToCent_nonneg (p : List ℝ) (cent : List (List ℝ))
    (h : cent ≠ []) : 0 ≤ Clustering.minDistToCent p cent := by
  obtain ⟨⟨c, _, hc⟩, _⟩ := Clustering.minDistToCent_spec p cent h
  rw [hc]
  exact Real.sqrt_nonneg _

/-- A sum of nonnegative reals vanishes exactly when every term does. -/
theorem ClusterKit.sum_eq_zero_iff_of_nonneg (l : List ℝ)
    (h : ∀ x ∈ l, 0 ≤ x) : l.sum = 0 ↔ ∀ x ∈ l, x = 0 := by
  induction l with
  | nil => simp
  | cons x xs ih =>
    have hx : 0 ≤ x := h x (List.mem_cons_self _ _)
    have hxs : ∀ y ∈ xs, 0 ≤ y := fun y hy => h y (List.mem_cons_of_mem _ hy)
    have hs : 0 ≤ xs.sum := List.sum_nonneg hxs
    rw [List.sum_cons]
    constructor
    · intro h0
      have hx0 : x = 0 := by nlinarith
      have hs0 : xs.sum = 0 := by nlinarith
      intro y hy
      rcases List.mem_cons.mp hy with h2 | h2
      · rwa [h2]
      · exact (ih hxs).mp hs0 y h2
    · intro hall
      rw [hall x (List.mem_cons_self _ _), zero_add]
      exact (ih hxs).mpr fun y hy => hall y (List.mem_cons_of_mem _ hy)

/-- Claim C8, amended: during K-means++ initialization (choosing centroid
`i ≥ 1`, so at least one centroid is already chosen), the total over all
points of the squared distance to the nearest already-chosen centroid is
zero exactly when every data point is at Euclidean distance 0 from some
chosen centroid; the per-point quantity really is the minimum of the
distances to the chosen centroids; and in the degenerate case the
algorithm falls back to taking the data point at index `i` — the
centroid's own index — as centroid `i` (or the first data point when `i`
is out of range), NOT the next not-yet-used data point in index order. -/
theorem C8_pp_zero_fallback (data : List (List ℝ)) (nf : Nat)
    (cent : List (List ℝ)) (i : Nat) (r : ℝ) (hcent : cent ≠ []) :
    (((data.map fun p => Clustering.minDistToCent p cent).map
        fun d => d * d).sum = 0 ↔
      ∀ p ∈ data, ∃ c ∈ cent, ClusterKit.euclidean_distance p c = 0) ∧
    (∀ p ∈ data,
      (∃ c ∈ cent, Clustering.minDistToCent p cent =
        ClusterKit.euclidean_distance p c) ∧
      ∀ c ∈ cent, Clustering.minDistToCent p cent ≤
        ClusterKit.euclidean_distance p c) ∧
    ((∀ p ∈ data, ∃ c ∈ cent, ClusterKit.euclidean_distance p c = 0) →
      Clustering.ppStep data nf cent i r =
        if i < data.length then data.getD i [] else data.getD 0 []) := by
  have hchar : ((data.map fun p => Clustering.minDistToCent p cent).map
      fun d => d * d).sum = 0 ↔
      ∀ p ∈ data, ∃ c ∈ cent, ClusterKit.euclidean_distance p c = 0 := by
    rw [ClusterKit.sum_eq_zero_iff_of_nonneg]
    · constructor
      · intro hall p hp
        have hmem : Clustering.minDistToCent p cent *
            Clustering.minDistToCent p cent ∈
            (data.map fun p2 => Clustering.minDistToCent p2 cent).map
              fun d => d * d :=
          List.mem_map_of_mem _ (List.mem_map_of_mem _ hp)
        have hz : Clustering.minDistToCent p cent = 0 :=
          mul_self_eq_zero.mp (hall _ hmem)
        obtain ⟨⟨c, hc, hce⟩, _⟩ := Clustering.minDistToCent_spec p cent hcent
        exact ⟨c, hc, by rw [← hce, hz]⟩
      · intro hall x hx
        obtain ⟨d, hd, rfl⟩ := List.mem_map.mp hx
        obtain ⟨p, hp, rfl⟩ := List.mem_map.mp hd
        obtain ⟨c, hc, hc0⟩ := hall p hp
        obtain ⟨_, hlb⟩ := Clustering.minDistToCent_spec p cent hcent
        have hle : Clustering.minDistToCent p cent ≤ 0 := by
          have := hlb c hc
          rwa [hc0] at this
        have h0 : Clustering.minDistToCent p cent = 0 :=
          le_antisymm hle (Clustering.minDistToCent_nonneg p cent hcent)
        rw [h0, mul_zero]
    · intro x hx
      obtain ⟨d, _, rfl⟩ := List.mem_map.mp hx
      exact mul_self_nonneg d
  refine ⟨hchar, ?_, ?_⟩
  · intro p _
    exact Clustering.minDistToCent_spec p cent hcent
  · intro hall
    have htot := hchar.mpr hall
    simp only [Clustering.ppStep]
    rw [if_pos htot]

/-- Witness for C8's amended theorem: two identical points and one
centroid equal to them — the total squared distance vanishes and the
fallback picks `data[1]`. -/
theorem C8_pp_zero_fallback_witness :
    (([[(0:ℝ)]] : List (List ℝ)) ≠ []) ∧
    ((∀ p ∈ ([[0], [0]] : List (List ℝ)),
        ∃ c ∈ ([[(0:ℝ)]] : List (List ℝ)),
          ClusterKit.euclidean_distance p c = 0) →
      Clustering.ppStep [[0], [0]] 1 [[0]] 1 0 =
        if 1 < ([[0], [0]] : List (List ℝ)).length
        then ([[0], [0]] : List (List ℝ)).getD 1 []
        else ([[0], [0]] : List (List ℝ)).getD 0 []) :=
  ⟨by simp,
    (C8_pp_zero_fallback [[0], [0]] 1 [[0]] 1 0 (by simp)).2.2⟩

theorem ClusterKit.dist_01 : ClusterKit.euclidean_distance [(0:ℝ)] [1] = 1 := by
  rw [ClusterKit.euclidean_distance]
  norm_num

theorem ClusterKit.dist_10 : ClusterKit.euclidean_distance [(1:ℝ)] [0] = 1 := by
  rw [ClusterKit.euclidean_distance]
  norm_num

theorem ClusterKit.dist_11 : ClusterKit.euclidean_distance [(1:ℝ)] [1] = 0 := by
  rw [ClusterKit.euclidean_distance]
  norm_num

theorem ClusterKit.dist_00 : ClusterKit.euclidean_distance [(0:ℝ)] [0] = 0 := by
  rw [ClusterKit.euclidean_distance]
  norm_num

theorem Clustering.minDist_single (p c : List ℝ) :
    Clustering.minDistToCent p [c] = ClusterKit.euclidean_distance p c := rfl

theorem Clustering.ppStep_c8_1 :
    Clustering.ppStep [[0], [0], [1], [1]] 1 [[1]] 1 (1 / 10) = [0] := by
  simp only [Clustering.ppStep, List.map_cons, List.map_nil,
    Clustering.minDist_single, ClusterKit.dist_01, ClusterKit.dist_11]
  norm_num [Clustering.roulette]

theorem Clustering.minDist_c8_0 :
    Clustering.minDistToCent [(0:ℝ)] [[1], [0]] = 0 := by
  simp only [Clustering.minDistToCent, List.foldl_cons, List.foldl_nil,
    ClusterKit.dist_00, ClusterKit.dist_01]
  norm_num

theorem Clustering.minDist_c8_1 :
    Clustering.minDistToCent [(1:ℝ)] [[1], [0]] = 0 := by
  simp only [Clustering.minDistToCent, List.foldl_cons, List.foldl_nil,
    ClusterKit.dist_10, ClusterKit.dist_11]
  norm_num

theorem Clustering.ppStep_c8_2 :
    Clustering.ppStep [[0], [0], [1], [1]] 1 [[1], [0]] 2 (1 / 10) = [1] := by
  simp only [Clustering.ppStep, List.map_cons, List.map_nil,
    Clustering.minDist_c8_0, Clustering.minDist_c8_1]
  norm_num

/-- Claim C8 counterexample: run K-means++ on the four points
`[0], [0], [1], [1]` with `k = 3`, first index draw 2 (first centroid
`[1]` = point 2) and roulette draw 1/10 (so the step-1 roulette, with
squared distances `1, 1, 0, 0` and `rand_val = 1/5`, picks point 0:
centroid 1 is `[0]`).  At step `i = 2` every point is at distance 0 from
a chosen centroid, so the total is zero and the fallback fires: the code
picks `data[2] = [1]`.  The points used so far are (under any reading of
which duplicates were drawn) one of indices {2,3} and one of {0,1}, so
the next unused data point in index order is point 0 or 1, whose value
is `[0]` in every case — and `[1] ≠ [0]`.  The claim's "falls back to
picking the next unused data point in index order" is therefore false at
this input: the fallback uses the centroid's own index, not the next
unused point. -/
theorem C8_counterexample :
    Clustering.kmeans_plusplus [[0], [0], [1], [1]] 3 1 2 (fun _ => 1 / 10) =
      [[1], [0], [1]] ∧
    ([[(0:ℝ)], [0], [1], [1]] : List (List ℝ)).getD 0 [] = [0] ∧
    ([[(0:ℝ)], [0], [1], [1]] : List (List ℝ)).getD 1 [] = [0] ∧
    ([(1:ℝ)] : List ℝ) ≠ [0] := by
  refine ⟨?_, rfl, rfl, by simp⟩
  rw [Clustering.kmeans_plusplus]
  show Clustering.ppGo [[0], [0], [1], [1]] 1 (fun _ => 1 / 10) (1 + 1) 1
    [[1]] = [[1], [0], [1]]
  rw [Clustering.ppGo]
  show Clustering.ppGo [[0], [0], [1], [1]] 1 (fun _ => 1 / 10) (0 + 1) 2
    ([[1]] ++ [Clustering.ppStep [[0], [0], [1], [1]] 1 [[1]] 1 (1 / 10)]) =
    [[1], [0], [1]]
  rw [Clustering.ppStep_c8_1, Clustering.ppGo]
  show Clustering.ppGo [[0], [0], [1], [1]] 1 (fun _ => 1 / 10) 0 3
    ([[1], [0]] ++ [Clustering.ppStep [[0], [0], [1], [1]] 1 [[1], [0]] 2 (1 / 10)]) =
    [[1], [0], [1]]
  rw [Clustering.ppStep_c8_2, Clustering.ppGo]
  rfl
